import Mathlib

set_option maxHeartbeats 1000000

/-
  Verification development for the HITL (human-in-the-loop) structured
  cognitive loop repository.  The Python sources (hitl_module.py,
  scl_core.py) are shallowly embedded below: dictionaries become
  association lists over a JSON-like value type, mutable object state is
  threaded explicitly, wall-clock timestamps are modelled as the constant
  empty string (no claim depends on them), and Python floats are modelled
  as rationals.
-/

namespace SCL

/-- JSON-like immutable value used to model Python dict/list/str/number
values that flow through the loop.  Python floats are modelled as
rationals.  Arrays and objects are first-order cons-chains
(`acons`/`ocons`) so that decidable equality derives; the smart
constructors `JVal.arr` and `JVal.obj` build them from lists. -/
inductive JVal : Type where
  | null  : JVal
  | bool  : Bool → JVal
  | num   : ℚ → JVal
  | str   : String → JVal
  | anil  : JVal
  | acons : JVal → JVal → JVal
  | onil  : JVal
  | ocons : String → JVal → JVal → JVal
  deriving DecidableEq, Repr

/-- Array value built from a list of elements. -/
def JVal.arr (l : List JVal) : JVal := l.foldr JVal.acons JVal.anil

/-- Object (dict) value built from a list of key/value fields. -/
def JVal.obj (l : List (String × JVal)) : JVal :=
  l.foldr (fun p t => JVal.ocons p.1 p.2 t) JVal.onil

/-- Association-list lookup (first match), modelling Python `dict.get`. -/
def alistGet {α : Type} : List (String × α) → String → Option α
  | [], _ => none
  | (k₁, v) :: rest, k => if k₁ = k then some v else alistGet rest k

/-- Association-list update modelling Python `d[k] = v`: an existing key
keeps its position (insertion order preserved), a new key is appended. -/
def alistSet {α : Type} : List (String × α) → String → α → List (String × α)
  | [], k, v => [(k, v)]
  | (k₁, v₁) :: rest, k, v =>
      if k₁ = k then (k₁, v) :: rest else (k₁, v₁) :: alistSet rest k v

/-- Association-list removal, modelling Python `d.pop(k, None)`. -/
def alistErase {α : Type} : List (String × α) → String → List (String × α)
  | [], _ => []
  | (k₁, v₁) :: rest, k =>
      if k₁ = k then alistErase rest k else (k₁, v₁) :: alistErase rest k

/-- Membership test on an association list, modelling `k in d`. -/
def alistHas {α : Type} (l : List (String × α)) (k : String) : Bool :=
  (alistGet l k).isSome

/-- Intervention levels, from `InterventionLevel` in hitl_module.py. -/
inductive ILevel : Type where
  | none | notify | confirm | approve | block
  deriving DecidableEq, Repr

/-- String value of an intervention level (the Python enum `.value`). -/
def ILevel.value : ILevel → String
  | .none => "none"
  | .notify => "notify"
  | .confirm => "confirm"
  | .approve => "approve"
  | .block => "block"

/-- A proposed action: `{tool_name, parameters}` as produced by the
cognition engine.  A missing `tool_name` is modelled by the empty string
(both `None` and `""` are falsy at every use site in the source). -/
structure ProposedAction : Type where
  tool_name : String
  parameters : List (String × JVal)
  deriving DecidableEq, Repr

/-- The empty proposed action, modelling the `{}` default of
`cognition_output.get("proposed_action", {})`. -/
def ProposedAction.empty : ProposedAction := ⟨"", []⟩

/-- Cognition output dictionary from the reasoning engine.  Optional
fields keep Python absence semantics: `confidence` absent means the
default 1.0 is used, `control_validated` absent is modelled as `false`,
and an absent/empty `evidence_refs` list is falsy. -/
structure CogOut : Type where
  reasoning : String
  proposed_action : Option ProposedAction
  evidence_refs : List String
  is_final_action : Bool
  confidence : Option ℚ
  control_validated : Bool
  deriving DecidableEq, Repr

/-- JSON encoding of a proposed action (for trace payloads). -/
def ProposedAction.toJ (pa : ProposedAction) : JVal :=
  .obj [("tool_name", .str pa.tool_name), ("parameters", .obj pa.parameters)]

/-- JSON encoding of a cognition output (for trace payloads). -/
def CogOut.toJ (c : CogOut) : JVal :=
  .obj ([("reasoning", .str c.reasoning)]
    ++ (match c.proposed_action with
        | some pa => [("proposed_action", pa.toJ)]
        | Option.none => [])
    ++ [("evidence_refs", .arr (c.evidence_refs.map JVal.str)),
        ("is_final_action", .bool c.is_final_action)]
    ++ (match c.confidence with
        | some q => [("confidence", .num q)]
        | Option.none => [])
    ++ [("control_validated", .bool c.control_validated)])

/-- Rendering of a rational for JSON serialisation.  Integers render as
Python ints do; non-integers use the Lean rational notation (the exact
float spelling is abstracted — only determinism matters, since the same
renderer is used at every key-derivation site). -/
def renderQ (q : ℚ) : String :=
  if q.den = 1 then toString q.num else toString q

/-- Insertion of a rendered key/value pair into a key-sorted list. -/
def insertByKey (p : String × String) : List (String × String) → List (String × String)
  | [] => [p]
  | q :: rest => if p.1 ≤ q.1 then p :: q :: rest else q :: insertByKey p rest

/-- Key-sort of rendered fields, modelling `json.dumps(..., sort_keys=True)`. -/
def sortFields (l : List (String × String)) : List (String × String) :=
  l.foldr insertByKey []

mutual
/-- Deterministic serialisation of a value, modelling
`json.dumps(v, sort_keys=True)` (string escaping abstracted). -/
def jdump : JVal → String
  | .null => "null"
  | .bool true => "true"
  | .bool false => "false"
  | .num q => renderQ q
  | .str s => "\"" ++ s ++ "\""
  | .anil => "[]"
  | .acons h t => "[" ++ String.intercalate ", " (jdump h :: jdumpArrItems t) ++ "]"
  | .onil => "\x7b\x7d"
  | .ocons k v t =>
      "\x7b" ++
        String.intercalate ", "
          ((sortFields ((k, jdump v) :: jdumpObjItems t)).map
            (fun p => "\"" ++ p.1 ++ "\": " ++ p.2))
        ++ "\x7d"

/-- Serialisation of the remaining elements of an array chain. -/
def jdumpArrItems : JVal → List String
  | .acons h t => jdump h :: jdumpArrItems t
  | _ => []

/-- Serialisation of the remaining fields of an object chain. -/
def jdumpObjItems : JVal → List (String × String)
  | .ocons k v t => (k, jdump v) :: jdumpObjItems t
  | _ => []
end

/-- The evidence-cache key derived from a tool call, from
`f"evidence_{tool_name}_{json.dumps(parameters, sort_keys=True)}"` (used
both when storing evidence in `action` and when checking duplicates in
`control`). -/
def evidenceKey (tool_name : String) (parameters : List (String × JVal)) : String :=
  "evidence_" ++ tool_name ++ "_" ++ jdump (.obj parameters)

/-- Ambient context dictionary threaded through the loop. -/
abbrev Ctx := List (String × JVal)

/-- Policy configuration of `HITLPolicy` (hitl_module.py).  The custom
handler table maps a tool name to an optional handler. -/
structure PolicyCfg : Type where
  high_risk_tools : List String
  always_confirm_tools : List String
  confirm_on_final_action : Bool
  confirm_on_external_action : Bool
  confirm_on_cost_threshold : ℚ
  confirm_on_confidence_below : ℚ
  confirm_after_n_loops : Nat
  confirm_on_loop_retry : Bool
  confirm_on_missing_evidence : Bool
  confirm_on_conflicting_evidence : Bool
  custom_handlers : String → Option (CogOut → Ctx → ILevel × String)

/-- Default policy table from `HITLPolicy.__init__`. -/
def defaultPolicy : PolicyCfg where
  high_risk_tools := ["send_email", "cancel_trip", "make_payment", "delete_data"]
  always_confirm_tools := ["generate_image"]
  confirm_on_final_action := true
  confirm_on_external_action := true
  confirm_on_cost_threshold := 100
  confirm_on_confidence_below := 7/10
  confirm_after_n_loops := 10
  confirm_on_loop_retry := true
  confirm_on_missing_evidence := true
  confirm_on_conflicting_evidence := true
  custom_handlers := fun _ => Option.none

/-- Two-decimal rendering of a confidence value, modelling the Python
format `f"{confidence:.2f}"` (rounding mode abstracted to truncation;
no claim depends on the digits). -/
def fmt2 (q : ℚ) : String :=
  let cents : Int := ⌊q * 100⌋
  toString (cents / 100) ++ "." ++
    (let c := (cents % 100).toNat
     (if c < 10 then "0" else "") ++ toString c)

/-- The intervention-policy evaluator `HITLPolicy.evaluate`
(hitl_module.py lines 131-174), translated rule for rule in source
order. -/
def evaluate (p : PolicyCfg) (cognition_output : CogOut) (context : Ctx)
    (loop_counter : Nat) : ILevel × String :=
  let proposed_action := cognition_output.proposed_action.getD ProposedAction.empty
  let tool_name := proposed_action.tool_name
  if tool_name ∈ p.high_risk_tools then
    (.approve, "High-risk tool: " ++ tool_name)
  else if tool_name ∈ p.always_confirm_tools then
    (.confirm, "Confirmation required for: " ++ tool_name)
  else if p.confirm_on_final_action ∧ cognition_output.is_final_action then
    (.confirm, "Final action requires confirmation")
  else if p.confirm_after_n_loops ≤ loop_counter then
    (.notify, "Extended loop count: " ++ toString loop_counter)
  else if cognition_output.confidence.getD 1 < p.confirm_on_confidence_below then
    (.confirm, "Low confidence: " ++ fmt2 (cognition_output.confidence.getD 1))
  else if p.confirm_on_missing_evidence ∧ cognition_output.evidence_refs = [] then
    (.notify, "Missing evidence citations")
  else
    match p.custom_handlers tool_name with
    | some h => h cognition_output context
    | Option.none => (.none, "")

/-- Governance rule switches of `MetaPrompt.__init__` (scl_core.py). -/
structure Rules : Type where
  must_cite_stored_evidence : Bool
  no_final_answer_without_control_pass : Bool
  single_final_action : Bool
  avoid_redundant_tool_calls : Bool
  validate_conditional_branches : Bool
  require_hitl_for_high_risk : Bool
  log_all_human_decisions : Bool
  deriving DecidableEq, Repr

/-- Default rule table (all switches on). -/
def defaultRules : Rules := ⟨true, true, true, true, true, true, true⟩

/-- Names of the governance rules, in dict insertion order (used by the
audit report's `policies` field). -/
def ruleNames : List String :=
  ["must_cite_stored_evidence", "no_final_answer_without_control_pass",
   "single_final_action", "avoid_redundant_tool_calls",
   "validate_conditional_branches", "require_hitl_for_high_risk",
   "log_all_human_decisions"]

/-- Metaprompt state as captured by `MetaPrompt.get_state`. -/
structure MPState : Type where
  rules : Rules
  instructions : String
  deriving DecidableEq, Repr

/-- The governance validator `MetaPrompt.validate` (scl_core.py lines
92-109): accumulates violated-rule descriptions and passes only when
none are violated. -/
def metaValidate (r : Rules) (cognition_output : CogOut) : Bool × String :=
  let issues : List String :=
    (if r.must_cite_stored_evidence ∧ cognition_output.evidence_refs = []
     then ["Missing evidence citations"] else [])
    ++ (if cognition_output.is_final_action ∧ ¬ cognition_output.control_validated
        then ["Final action without Control validation"] else [])
  if issues = [] then (true, "PASS")
  else (false, "VIOLATIONS: " ++ String.intercalate "; " issues)

/-- A working-store entry `{value, timestamp, evidence_id}` as written by
`Memory.write`.  Timestamps are modelled as the constant empty string. -/
structure StoreEntry : Type where
  value : JVal
  timestamp : String
  evidence_id : Option String
  deriving DecidableEq, Repr

/-- One record of the execution log (`LoopTrace` in scl_core.py). -/
structure LoopTrace : Type where
  loop_id : String
  timestamp : String
  module : String
  input_state : JVal
  output_state : JVal
  decision : Option String
  validation_result : Option Bool
  evidence_refs : Option (List String)
  hitl_event : Option JVal
  deriving DecidableEq, Repr

/-- The externalized Working Store (`Memory` in scl_core.py). -/
structure Memory : Type where
  store : List (String × StoreEntry)
  history : List LoopTrace
  evidence_cache : List (String × JVal)
  deriving DecidableEq, Repr

/-- Fresh memory (`Memory.__init__`). -/
def Memory.init : Memory := ⟨[], [], []⟩

/-- `Memory.write` (evidence_id defaults to `None`). -/
def Memory.write (m : Memory) (key : String) (value : JVal)
    (evidence_id : Option String) : Memory :=
  { m with store := alistSet m.store key ⟨value, "", evidence_id⟩ }

/-- `Memory.read`. -/
def Memory.read (m : Memory) (key : String) : Option JVal :=
  (alistGet m.store key).map StoreEntry.value

/-- `Memory.has_evidence`. -/
def Memory.has_evidence (m : Memory) (evidence_id : String) : Bool :=
  alistHas m.evidence_cache evidence_id

/-- `Memory.store_evidence`. -/
def Memory.store_evidence (m : Memory) (evidence_id : String) (data : JVal) : Memory :=
  { m with evidence_cache := alistSet m.evidence_cache evidence_id data }

/-- `Memory.log_trace`. -/
def Memory.log_trace (m : Memory) (t : LoopTrace) : Memory :=
  { m with history := m.history ++ [t] }

/-- State summary returned by `Memory.get_state_summary` and embedded in
the audit report. -/
structure StateSummary : Type where
  stored_values : List (String × JVal)
  available_evidence : List String
  loop_count : Nat
  deriving DecidableEq, Repr

/-- `Memory.get_state_summary`. -/
def Memory.get_state_summary (m : Memory) : StateSummary :=
  ⟨m.store.map (fun p => (p.1, p.2.value)), m.evidence_cache.map Prod.fst,
   m.history.length⟩

/-- Memory snapshot `{store, history_length}` from `Memory.get_snapshot`.
Deep copies are identities on these immutable model values; the aliasing
content of `copy.deepcopy` is verified separately in the heap model
below. -/
structure MemSnapshot : Type where
  store : List (String × StoreEntry)
  history_length : Nat
  deriving DecidableEq, Repr

/-- `Memory.get_snapshot`. -/
def Memory.get_snapshot (m : Memory) : MemSnapshot := ⟨m.store, m.history.length⟩

/-- `Memory.restore_snapshot`: only the store is restored (the snapshot's
`history_length` field is unused by the source). -/
def Memory.restore_snapshot (m : Memory) (snapshot : MemSnapshot) : Memory :=
  { m with store := snapshot.store }

/-- `Memory.get_evidence_snapshot`. -/
def Memory.get_evidence_snapshot (m : Memory) : List (String × JVal) :=
  m.evidence_cache

/-- `Memory.restore_evidence`. -/
def Memory.restore_evidence (m : Memory) (ev : List (String × JVal)) : Memory :=
  { m with evidence_cache := ev }

namespace HM

/-- Kinds of HITL events (`HITLEventType` in hitl_module.py). -/
inductive EventType : Type where
  | approval_requested | approved | rejected | modified
  | state_frozen | state_thawed | timeout | delegated
  deriving DecidableEq, Repr

/-- A frozen cognitive state (`FrozenCognitiveState`).  Snapshot
identifiers are modelled by the numeric freeze counter; the source
renders them as the string `FREEZE-nnnn`, which is injective in the
counter. -/
structure Frozen : Type where
  freeze_id : Nat
  freeze_timestamp : String
  loop_counter : Nat
  pending_action : ProposedAction
  cognition_output : CogOut
  memory_snapshot : MemSnapshot
  evidence_cache : List (String × JVal)
  context : Ctx
  metaprompt_state : MPState
  intervention_reason : String
  intervention_level : ILevel
  deriving DecidableEq, Repr

/-- A HITL audit event (`HITLTrace`).  Trace identifiers are modelled by
the numeric trace counter (source: `HITL-nnnn`). -/
structure HITLTrace : Type where
  trace_id : Nat
  timestamp : String
  event_type : EventType
  freeze_id : Option Nat
  pending_action : ProposedAction
  human_decision : Option String
  human_feedback : Option String
  modified_action : Option ProposedAction
  decision_rationale : Option String
  actor : String
  deriving DecidableEq, Repr

/-- Mutable state of a `HITLManager`: the snapshot store, the audit
trace list, and the two id counters. -/
structure MState : Type where
  frozen_states : List (Nat × Frozen)
  hitl_traces : List HITLTrace
  freeze_counter : Nat
  trace_counter : Nat
  deriving DecidableEq, Repr

/-- Fresh manager state (`HITLManager.__init__`; the UI callbacks are
never set by the repository, so they are omitted). -/
def init : MState := ⟨[], [], 0, 0⟩

/-- Lookup in the snapshot store, modelling `freeze_id in self.frozen_states`. -/
def MState.getFrozen (m : MState) (fid : Nat) : Option Frozen :=
  (m.frozen_states.find? (fun p => p.1 = fid)).map Prod.snd

/-- The string form of a freeze identifier (`f"FREEZE-{n:04d}"`). -/
def freezeName (n : Nat) : String :=
  let s := toString n
  "FREEZE-" ++ (String.mk (List.replicate (4 - s.length) '0')) ++ s

/-- Internal `HITLManager._log_trace`: allocates the next trace id and
appends one audit event. -/
def logTrace (m : MState) (event_type : EventType) (freeze_id : Option Nat)
    (pending_action : ProposedAction) (human_decision : Option String)
    (human_feedback : Option String) (modified_action : Option ProposedAction)
    (decision_rationale : Option String) (actor : String) : MState × HITLTrace :=
  let tid := m.trace_counter + 1
  let t : HITLTrace :=
    ⟨tid, "", event_type, freeze_id, pending_action, human_decision,
     human_feedback, modified_action, decision_rationale, actor⟩
  ({ m with hitl_traces := m.hitl_traces ++ [t], trace_counter := tid }, t)

/-- `HITLManager.freeze_state` (hitl_module.py lines 212-262): allocates
a fresh id, builds the snapshot (deep copies are identities on the
immutable model values; `pending_action` is the live
`cognition_output.get("proposed_action", {})`), stores it and logs a
`state_frozen` event with actor `"system"`. -/
def freeze_state (m : MState) (loop_counter : Nat) (cognition_output : CogOut)
    (memory_state : MemSnapshot) (evidence_cache : List (String × JVal))
    (context : Ctx) (metaprompt_state : MPState)
    (intervention_level : ILevel) (intervention_reason : String) :
    MState × Frozen :=
  let fid := m.freeze_counter + 1
  let frozen : Frozen :=
    { freeze_id := fid
      freeze_timestamp := ""
      loop_counter := loop_counter
      pending_action := cognition_output.proposed_action.getD ProposedAction.empty
      cognition_output := cognition_output
      memory_snapshot := memory_state
      evidence_cache := evidence_cache
      context := context
      metaprompt_state := metaprompt_state
      intervention_reason := intervention_reason
      intervention_level := intervention_level }
  let m := { m with freeze_counter := fid,
                    frozen_states := m.frozen_states ++ [(fid, frozen)] }
  let (m, _) := logTrace m .state_frozen (some fid) frozen.pending_action
      Option.none Option.none Option.none Option.none "system"
  (m, frozen)

/-- `HITLManager.thaw_state` (hitl_module.py lines 264-288): returns the
stored snapshot and logs a `state_thawed` event, or returns `none`
without logging when the id is absent.  The snapshot is not deleted. -/
def thaw_state (m : MState) (freeze_id : Nat) : MState × Option Frozen :=
  match m.getFrozen freeze_id with
  | Option.none => (m, Option.none)
  | some frozen =>
      let (m, _) := logTrace m .state_thawed (some freeze_id)
        frozen.pending_action Option.none Option.none Option.none Option.none "system"
      (m, some frozen)

/-- Approval request assembled by `HITLManager.request_approval`.  The
`str(...)` rendering of the last action result is abstracted by the
canonical serialiser. -/
structure ApprovalRequest : Type where
  freeze_id : Nat
  intervention_level : String
  intervention_reason : String
  pending_action : ProposedAction
  cognition_reasoning : String
  evidence_refs : List String
  summary_loop_counter : Nat
  summary_task : String
  summary_last_action : String
  options : List String
  deriving DecidableEq, Repr

/-- `HITLManager.request_approval` (hitl_module.py lines 290-325): logs
an `approval_requested` event and assembles the request summary. -/
def request_approval (m : MState) (frozen_state : Frozen) :
    MState × ApprovalRequest :=
  let (m, _) := logTrace m .approval_requested (some frozen_state.freeze_id)
      frozen_state.pending_action Option.none Option.none Option.none Option.none "system"
  let request : ApprovalRequest :=
    { freeze_id := frozen_state.freeze_id
      intervention_level := frozen_state.intervention_level.value
      intervention_reason := frozen_state.intervention_reason
      pending_action := frozen_state.pending_action
      cognition_reasoning := frozen_state.cognition_output.reasoning
      evidence_refs := frozen_state.cognition_output.evidence_refs
      summary_loop_counter := frozen_state.loop_counter
      summary_task :=
        ((alistGet frozen_state.context "task").getD (.str "") |> jdump).take 200
      summary_last_action :=
        (jdump ((alistGet frozen_state.context "last_action_result").getD (.str ""))).take 200
      options := ["approve", "reject", "modify"] }
  (m, request)

/-- The `next_action` dictionary computed by
`HITLManager._determine_next_action`. -/
inductive NextAction : Type where
  | execute (proposed_action : ProposedAction)
  | retry_cognition (rejection_feedback : String)
  deriving DecidableEq, Repr

/-- Result of `HITLManager.process_human_decision`: the error dictionary
or the processed-decision dictionary. -/
inductive DecisionResult : Type where
  | error (msg : String)
  | ok (decision : String) (trace_id : Nat) (freeze_id : Nat)
       (next_action : NextAction)
  deriving DecidableEq, Repr

/-- Whether a decision result is the error dictionary. -/
def DecisionResult.isError : DecisionResult → Bool
  | .error _ => true
  | .ok _ _ _ _ => false

/-- `HITLManager._determine_next_action` (hitl_module.py lines 380-402).
The Python `modified_action or frozen.pending_action` falls back to the
pending action when no replacement was supplied. -/
def determine_next_action (decision : String) (frozen : Frozen)
    (modified_action : Option ProposedAction) : NextAction :=
  if decision = "approve" then .execute frozen.pending_action
  else if decision = "modify" then
    .execute (modified_action.getD frozen.pending_action)
  else .retry_cognition frozen.cognition_output.reasoning

/-- `HITLManager.process_human_decision` (hitl_module.py lines 327-378):
rejects an unknown id, rejects a decision outside
approve/reject/modify, otherwise logs the decision event with actor
`"human"` and computes the next action.  The snapshot store is never
modified. -/
def process_human_decision (m : MState) (freeze_id : Nat) (decision : String)
    (feedback : Option String) (modified_action : Option ProposedAction)
    (rationale : Option String) : MState × DecisionResult :=
  match m.getFrozen freeze_id with
  | Option.none => (m, .error ("Frozen state not found: " ++ freezeName freeze_id))
  | some frozen =>
      let event_type : Option EventType :=
        if decision = "approve" then some .approved
        else if decision = "reject" then some .rejected
        else if decision = "modify" then some .modified
        else Option.none
      match event_type with
      | Option.none => (m, .error ("Invalid decision: " ++ decision))
      | some et =>
          let (m, trace) := logTrace m et (some freeze_id) frozen.pending_action
              (some decision) feedback modified_action rationale "human"
          (m, .ok decision trace.trace_id freeze_id
                (determine_next_action decision frozen modified_action))

/-- Context patch of `HITLManager.create_virtual_rejection_cycle`
(hitl_module.py lines 404-425), restricted to the `context_update`
entry actually consumed by the loop. -/
def virtual_rejection_context (frozen : Frozen) (rejection_reason : String) : Ctx :=
  [("human_rejected", .bool true),
   ("rejection_reason", .str rejection_reason),
   ("previous_proposal", frozen.pending_action.toJ),
   ("retry_guidance", .str "Consider alternative approaches based on human feedback")]

/-- `HITLManager.cleanup_frozen_state`. -/
def cleanup_frozen_state (m : MState) (freeze_id : Nat) : MState :=
  { m with frozen_states := m.frozen_states.filter (fun p => p.1 ≠ freeze_id) }

/-- Counters of `HITLManager.get_audit_log()["statistics"]`. -/
structure AuditStats : Type where
  total_interventions : Nat
  approvals : Nat
  rejections : Nat
  modifications : Nat
  frozen_states_count : Nat
  deriving DecidableEq, Repr

/-- The statistics block of `HITLManager.get_audit_log`. -/
def auditStats (m : MState) : AuditStats :=
  { total_interventions := m.hitl_traces.length
    approvals := (m.hitl_traces.filter (fun t => t.event_type = .approved)).length
    rejections := (m.hitl_traces.filter (fun t => t.event_type = .rejected)).length
    modifications := (m.hitl_traces.filter (fun t => t.event_type = .modified)).length
    frozen_states_count := m.frozen_states.length }

end HM

/-- Zero-padded numeral (`f"{n:0wd}"`). -/
def padZ (w : Nat) (n : Nat) : String :=
  let s := toString n
  String.mk (List.replicate (w - s.length) '0') ++ s

/-- HITL operating mode of the loop.  The `interactive` mode reads the
decision from a console prompt and is excluded as an external decision
source; `noHandler` stands for any mode string other than
auto/interactive/disabled, for which no handler object is created. -/
inductive Mode : Type where
  | disabled | auto | noHandler
  deriving DecidableEq, Repr

/-- Report string of the mode. -/
def Mode.value : Mode → String
  | .disabled => "disabled"
  | .auto => "auto"
  | .noHandler => "nohandler"

/-- Input handed to the opaque reasoning engine: the cognition prompt is
assembled from the state summary, the ambient context and the loop
counter, so the engine is modelled as an arbitrary function of these. -/
structure CogEnv : Type where
  summary : StateSummary
  context : Ctx
  loop_counter : Nat

/-- Loop configuration: the constructor arguments of
`StructuredCognitiveLoopWithHITL.__init__` (the metaprompt is never
mutated, so its state lives here). -/
structure Config : Type where
  policy : PolicyCfg
  rules : Rules
  instructions : String
  max_loops : Nat
  mode : Mode
  tools : List (String × (List (String × JVal) → Except String JVal))
  engine : CogEnv → CogOut

/-- Mutable state of a `StructuredCognitiveLoopWithHITL` instance. -/
structure SysState : Type where
  memory : Memory
  loop_counter : Nat
  hitl : HM.MState
  resume_context : Option Ctx
  is_resumed : Bool
  deriving DecidableEq, Repr

/-- Fresh loop state. -/
def SysState.init : SysState := ⟨Memory.init, 0, HM.init, Option.none, false⟩

/-- `ToolRegistry.execute`: unknown names raise
`ValueError(f"Tool '{name}' not registered")`, a registered tool may
itself fail. -/
def toolsExecute (tools : List (String × (List (String × JVal) → Except String JVal)))
    (tool_name : String) (parameters : List (String × JVal)) : Except String JVal :=
  match alistGet tools tool_name with
  | Option.none => .error ("Tool '" ++ tool_name ++ "' not registered")
  | some f => f parameters

/-- Context dictionary as a JSON value (for trace payloads). -/
def ctxJ (c : Ctx) : JVal := .obj c

/-- Python `context.update(patch)`. -/
def ctxUpdate (c patch : Ctx) : Ctx :=
  patch.foldl (fun acc p => alistSet acc p.1 p.2) c

/-- Write-through of an in-place mutation of the live context dict.
Every Cognition loop trace stores `input_state=context` by reference
(scl_core.py line 352), not as a copy, so each later in-place update of
the dict is visible in those history entries when
`_generate_audit_report` serializes them with `asdict` at report time.
`mark` is the history length at the moment the current context dict was
allocated (`run`'s context literal, or the deep-copied `frozen.context`
on resumption), so exactly the Cognition entries logged since then
alias the live dict; `i` is the index of the first entry of `l` in the
full history. -/
def patchFrom (mark : Nat) (c : Ctx) : Nat → List LoopTrace → List LoopTrace
  | _, [] => []
  | i, t :: rest =>
      (if mark ≤ i ∧ t.module = "Cognition"
       then { t with input_state := ctxJ c } else t) :: patchFrom mark c (i + 1) rest

/-- Write-through of a mutation of a resumed context dict to the stored
snapshot: `resume_from_freeze` binds `context = frozen.context` without
copying, so the resumed execution keeps mutating the very dict stored
inside the snapshot, which stays in `frozen_states` (neither a decision
nor thawing removes it) and is serialized into the report's
`frozen_states` block by `get_audit_log`. -/
def patchFrozenCtx (k : Nat) (c : Ctx) :
    List (Nat × HM.Frozen) → List (Nat × HM.Frozen)
  | [] => []
  | (i, fz) :: rest =>
      (if i = k then (i, { fz with context := c }) else (i, fz))
        :: patchFrozenCtx k c rest

/-- An in-place mutation of the live context dict: the new context
value, written through to the aliasing Cognition history entries and,
when the live dict is a resumed snapshot's context (`fid` names the
snapshot), to the stored snapshot itself. -/
def setCtx (mark : Nat) (fid : Option Nat) (s : SysState) (c : Ctx) :
    SysState × Ctx :=
  ({ s with
      memory := { s.memory with history := patchFrom mark c 0 s.memory.history },
      hitl := match fid with
              | some k =>
                  { s.hitl with
                      frozen_states := patchFrozenCtx k c s.hitl.frozen_states }
              | Option.none => s.hitl }, c)

/-- The hard-coded retrieval plan of `retrieval` (scl_core.py lines
266-271). -/
def retrievalPlan : JVal :=
  .obj [("evidence_needed",
          .arr [.str "SF_weather", .str "Miami_weather", .str "Atlanta_weather"]),
        ("base_temperature", .num 55),
        ("conditions_parsed", .bool true),
        ("tools_required",
          .arr [.str "get_weather", .str "send_email", .str "generate_image",
                .str "cancel_trip"])]

/-- The Retrieval module (scl_core.py lines 257-286): writes the task and
plan into the working store and logs one trace. -/
def retrieval (s : SysState) (task : String) : SysState × JVal :=
  let m := (s.memory.write "task" (.str task) Option.none).write
              "retrieval_plan" retrievalPlan Option.none
  let trace : LoopTrace :=
    ⟨"R-001", "", "Retrieval", .obj [("task", .str task)], retrievalPlan,
     Option.none, Option.none, Option.none, Option.none⟩
  ({ s with memory := m.log_trace trace }, retrievalPlan)

/-- The Cognition module (scl_core.py lines 288-358): increments the loop
counter, queries the engine and logs the exchange.  The logged trace
holds the live context dict as `input_state` and the live response dict
as `output_state` by reference; later in-place mutations of those dicts
are written through to the logged entry (`setCtx` for the context, and
the `control_validated` patch in `control` for the response), so the
entry's report-time serialization matches the source. -/
def cognition (cfg : Config) (s : SysState) (context : Ctx) : SysState × CogOut :=
  let n := s.loop_counter + 1
  let response := cfg.engine ⟨s.memory.get_state_summary, context, n⟩
  let trace : LoopTrace :=
    ⟨"CCAM-" ++ padZ 3 n, "", "Cognition", ctxJ context, response.toJ,
     Option.none, Option.none, some response.evidence_refs, Option.none⟩
  ({ s with loop_counter := n, memory := s.memory.log_trace trace }, response)

/-- The duplicate-call rejection message of `control`. -/
def redundantMsg : String := "REJECTED: Redundant tool call (evidence already in Memory)"

/-- Write-through of the in-place `control_validated` mutation: the
Cognition trace just logged holds the live cognition-output dict as its
`output_state` (scl_core.py lines 349-355), so the flag `control` sets
on that same dict is visible in the entry when the report serializes
it.  The aliasing entry is the last one: `control` runs directly after
`cognition` in both loop bodies. -/
def patchLastOutput (j : JVal) : List LoopTrace → List LoopTrace
  | [] => []
  | [t] => [{ t with output_state := j }]
  | t :: u :: rest => t :: patchLastOutput j (u :: rest)

/-- The Control module (scl_core.py lines 360-394): sets the
control-validated flag on final actions (an in-place mutation of the
cognition-output dict, written through to the Cognition trace that
holds the dict), applies the governance validator, then overrides with
a hard rejection on an evidence-cache hit, and logs the outcome.
Returns the validity, the message and the (possibly updated) cognition
output. -/
def control (cfg : Config) (s : SysState) (cognition_output : CogOut) :
    SysState × (Bool × String × CogOut) :=
  let out := if cognition_output.is_final_action
             then { cognition_output with control_validated := true }
             else cognition_output
  let s := if cognition_output.is_final_action
           then { s with memory :=
              { s.memory with history := patchLastOutput out.toJ s.memory.history } }
           else s
  let (is_valid, message) := metaValidate cfg.rules out
  let proposed_action := out.proposed_action.getD ProposedAction.empty
  let tool_name := proposed_action.tool_name
  let (is_valid, message) :=
    if tool_name ≠ "" ∧
       s.memory.has_evidence (evidenceKey tool_name proposed_action.parameters) then
      (false, redundantMsg)
    else (is_valid, message)
  let trace : LoopTrace :=
    ⟨"CTL-" ++ padZ 3 s.loop_counter, "", "Control", out.toJ,
     .obj [("validation", .bool is_valid), ("message", .str message)],
     Option.none, some is_valid, Option.none, Option.none⟩
  ({ s with memory := s.memory.log_trace trace }, (is_valid, message, out))

/-- JSON form of a next-action dictionary. -/
def encodeNextAction : HM.NextAction → JVal
  | .execute pa => .obj [("action", .str "execute"), ("proposed_action", pa.toJ)]
  | .retry_cognition fb =>
      .obj [("action", .str "retry_cognition"),
            ("rejection_feedback", .str fb),
            ("virtual_rejection_cycle", .bool true)]

/-- JSON form of a decision-result dictionary. -/
def encodeDecisionResult : HM.DecisionResult → JVal
  | .error msg => .obj [("error", .str msg)]
  | .ok d tid fid na =>
      .obj [("status", .str "processed"), ("decision", .str d),
            ("trace_id", .num tid), ("freeze_id", .num fid),
            ("next_action", encodeNextAction na)]

/-- Outcome of the HITL check as seen by the loop:
`(True, None)`/`(True, modified)` become `proceed`, `(False, None)`
becomes `blocked`, `(False, {"virtual_rejection": True})` becomes
`virtualReject`. -/
inductive HCOut : Type where
  | proceed (modified : Option ProposedAction)
  | blocked
  | virtualReject
  deriving DecidableEq, Repr

/-- The HITL Check module `hitl_check` (scl_core.py lines 396-486):
evaluates the intervention policy, freezes state, requests approval,
obtains a synchronous decision (auto handler, or the handler-less
notify auto-approval), logs the HITL loop trace, and thaws on a
decision. -/
def hitl_check (cfg : Config) (s : SysState) (cognition_output : CogOut)
    (context : Ctx) : SysState × HCOut :=
  match cfg.mode with
  | .disabled => (s, .proceed Option.none)
  | mode =>
    let (intervention_level, reason) :=
      evaluate cfg.policy cognition_output context s.loop_counter
    if intervention_level = .none then (s, .proceed Option.none)
    else
      let (hm, frozen_state) := HM.freeze_state s.hitl s.loop_counter
        cognition_output s.memory.get_snapshot s.memory.get_evidence_snapshot
        context ⟨cfg.rules, cfg.instructions⟩ intervention_level reason
      let (hm, request) := HM.request_approval hm frozen_state
      let handlerResult : Option (HM.MState × HM.DecisionResult) :=
        match mode with
        | .auto =>
            some (HM.process_human_decision hm request.freeze_id "approve"
              Option.none Option.none (some "Auto-approved for testing"))
        | _ =>
            if intervention_level = .notify then
              some (HM.process_human_decision hm frozen_state.freeze_id "approve"
                Option.none Option.none (some "Auto-approved (notify level)"))
            else Option.none
      match handlerResult with
      | Option.none => ({ s with hitl := hm }, .blocked)
      | some (hm, result) =>
          let hitl_trace : LoopTrace :=
            ⟨"HITL-" ++ padZ 3 s.loop_counter, "", "HITL",
             .obj [("freeze_id", .num frozen_state.freeze_id),
                   ("level", .str intervention_level.value)],
             encodeDecisionResult result, Option.none, Option.none, Option.none,
             some (encodeDecisionResult result)⟩
          let s := { s with hitl := hm, memory := s.memory.log_trace hitl_trace }
          match result with
          | .ok _ _ _ (.execute pa) =>
              let (hm, _) := HM.thaw_state s.hitl frozen_state.freeze_id
              let s := { s with hitl := hm }
              if some pa ≠ cognition_output.proposed_action
              then (s, .proceed (some pa))
              else (s, .proceed Option.none)
          | .ok _ _ _ (.retry_cognition _) =>
              let (hm, _) := HM.thaw_state s.hitl frozen_state.freeze_id
              let rc := HM.virtual_rejection_context frozen_state
                          "Human rejected the action"
              let s := { s with hitl := hm, resume_context := some rc }
              (s, .virtualReject)
          | .error _ => (s, .blocked)

/-- The `{"status": "no_action", "result": None}` result of `action`. -/
def noActionResult : JVal := .obj [("status", .str "no_action"), ("result", .null)]

/-- The failed-action result dictionary built by the `except` branch of
`action`. -/
def errResult (msg : String) : JVal :=
  .obj [("status", .str "error"), ("message", .str ("Action execution failed: " ++ msg))]

/-- The Action module (scl_core.py lines 488-526): executes the
(possibly HITL-modified) action; on success it caches the evidence and
logs an action trace, on failure it returns the failed-result
dictionary without logging anything. -/
def action (cfg : Config) (s : SysState) (cognition_output : CogOut)
    (modified_action : Option ProposedAction) : SysState × JVal :=
  let proposed_action :=
    modified_action.getD (cognition_output.proposed_action.getD ProposedAction.empty)
  let tool_name := proposed_action.tool_name
  let parameters := proposed_action.parameters
  if tool_name = "" then (s, noActionResult)
  else
    match toolsExecute cfg.tools tool_name parameters with
    | .error e => (s, errResult e)
    | .ok result =>
        let evidence_id := evidenceKey tool_name parameters
        let m := s.memory.store_evidence evidence_id result
        let trace : LoopTrace :=
          ⟨"ACT-" ++ padZ 3 s.loop_counter, "", "Action", proposed_action.toJ,
           .obj [("result", result), ("evidence_id", .str evidence_id)],
           Option.none, Option.none, Option.none, Option.none⟩
        ({ s with memory := m.log_trace trace }, result)

/-- Result of one body of the main while loop: continue with a new
context, or leave the loop. -/
inductive IterOut : Type where
  | cont (s : SysState) (context : Ctx)
  | halt (s : SysState)

/-- The state carried by an iteration result. -/
def IterOut.state : IterOut → SysState
  | .cont s _ => s
  | .halt s => s

/-- Top of the `run` loop body: merge a pending virtual-rejection
context patch via `context.update` (`run` only; `_continue_execution`
skips this).  The update mutates the live dict in place, so it is
written through to the aliasing history entries. -/
def iterPre (mark : Nat) (fid : Option Nat) (mergeResume : Bool) (s : SysState)
    (context : Ctx) : SysState × Ctx :=
  if mergeResume then
    match s.resume_context with
    | some rc =>
        setCtx mark fid { s with resume_context := Option.none } (ctxUpdate context rc)
    | Option.none => (s, context)
  else (s, context)

/-- Removal of the consumed human-feedback keys after cognition. -/
def clearRejectionKeys (context : Ctx) : Ctx :=
  alistErase (alistErase (alistErase context "human_rejected") "rejection_reason")
    "retry_guidance"

/-- Tail of the loop body after the HITL check: dispatch the action,
write the action result into the live context (an in-place mutation
visible in the aliasing history entries), and decide whether the loop
continues, halts on a final action, or halts blocked. -/
def afterCheck (cfg : Config) (mark : Nat) (fid : Option Nat)
    (cognition_output : CogOut) (context : Ctx) : SysState × HCOut → IterOut
  | (s, .virtualReject) => .cont s context
  | (s, .blocked) => .halt s
  | (s, .proceed modified) =>
      let (s, action_result) := action cfg s cognition_output modified
      let (s, context) :=
        setCtx mark fid s (alistSet context "last_action_result" action_result)
      if cognition_output.is_final_action then .halt s
      else .cont s context

/-- One iteration of the CCAM loop body shared by `run` and
`_continue_execution` (scl_core.py lines 550-595 and 669-697);
`mergeResume` is true for `run`, which merges a pending
virtual-rejection context patch at the top of the body. -/
def loopIter (cfg : Config) (mark : Nat) (fid : Option Nat) (mergeResume : Bool)
    (s : SysState) (context : Ctx) : IterOut :=
  match iterPre mark fid mergeResume s context with
  | (s, context) =>
    match cognition cfg s context with
    | (s, cognition_output) =>
      match setCtx mark fid s (clearRejectionKeys context) with
      | (s, context) =>
        match control cfg s cognition_output with
        | (s, (is_valid, validation_msg, cognition_output)) =>
          if ¬ is_valid then
            match setCtx mark fid s
                (alistSet context "last_rejection" (.str validation_msg)) with
            | (s, context) => .cont s context
          else
            afterCheck cfg mark fid cognition_output context
              (hitl_check cfg s cognition_output context)

/-- The fuel-indexed while loop `while self.loop_counter < self.max_loops`.
Every iteration increments the loop counter by exactly one (cognition
runs first in the body), so any fuel of at least
`max_loops - loop_counter` gives the exact Python semantics. -/
def loopRun (cfg : Config) (mark : Nat) (fid : Option Nat) (mergeResume : Bool) :
    Nat → SysState → Ctx → SysState
  | 0, s, _ => s
  | fuel + 1, s, context =>
      if s.loop_counter < cfg.max_loops then
        match loopIter cfg mark fid mergeResume s context with
        | .cont s₁ ctx₁ => loopRun cfg mark fid mergeResume fuel s₁ ctx₁
        | .halt s₁ => s₁
      else s

/-- Summary block of the audit report. -/
structure Summary : Type where
  total_loops : Nat
  policy_violations : Nat
  hitl_interventions : Nat
  hitl_approvals : Nat
  hitl_rejections : Nat
  final_state : StateSummary
  deriving DecidableEq, Repr

/-- The audit report of `_generate_audit_report` (scl_core.py lines
701-723). -/
structure Report : Type where
  task : Option JVal
  policies : List String
  hitl_mode : String
  log : List LoopTrace
  hitl_events : List HM.HITLTrace
  hitl_frozen : List (Nat × HM.Frozen)
  hitl_stats : HM.AuditStats
  summary : Summary
  deriving DecidableEq, Repr

/-- `_generate_audit_report`. -/
def genReport (cfg : Config) (s : SysState) : Report :=
  let stats := HM.auditStats s.hitl
  { task := s.memory.read "task"
    policies := ruleNames
    hitl_mode := cfg.mode.value
    log := s.memory.history
    hitl_events := s.hitl.hitl_traces
    hitl_frozen := s.hitl.frozen_states
    hitl_stats := stats
    summary :=
      { total_loops := s.loop_counter
        policy_violations :=
          (s.memory.history.filter (fun t => t.validation_result = some false)).length
        hitl_interventions := stats.total_interventions
        hitl_approvals := stats.approvals
        hitl_rejections := stats.rejections
        final_state := s.memory.get_state_summary } }

/-- `run` (scl_core.py lines 528-597), returning the final instance
state together with the report.  The context dict is freshly allocated
here, so the write-through mark is the history length at this point
(only entries logged from here on can alias the dict). -/
def runFull (cfg : Config) (task : String) : SysState × Report :=
  let (s, plan) := retrieval SysState.init task
  let context : Ctx :=
    [("task", .str task), ("retrieval_plan", plan), ("status", .str "in_progress")]
  let s := loopRun cfg s.memory.history.length Option.none true cfg.max_loops
    s context
  (s, genReport cfg s)

/-- `run`, projected to the returned report. -/
def run (cfg : Config) (task : String) : Report := (runFull cfg task).2

/-- Value returned by `resume_from_freeze`: the error dictionary or an
audit report. -/
inductive RunOutcome : Type where
  | error (msg : String)
  | report (r : Report)
  deriving DecidableEq, Repr

/-- `_continue_execution` (scl_core.py lines 667-699). -/
def continueExecution (cfg : Config) (mark : Nat) (fid : Option Nat)
    (s : SysState) (context : Ctx) : SysState × Report :=
  let s := loopRun cfg mark fid false cfg.max_loops s context
  (s, genReport cfg s)

/-- The execute branch of `resume_from_freeze`: run the (possibly
modified) action, write the result into the resumed context, then
continue the loop unless the action was final. -/
def resumeExec (cfg : Config) (mark : Nat) (fid : Option Nat) (s : SysState)
    (frozen : HM.Frozen) (pa : ProposedAction) (context : Ctx) :
    SysState × RunOutcome :=
  match action cfg s frozen.cognition_output (some pa) with
  | (s, action_result) =>
    match setCtx mark fid s (alistSet context "last_action_result" action_result) with
    | (s, context) =>
      if ¬ frozen.cognition_output.is_final_action then
        let s := { s with is_resumed := true }
        match continueExecution cfg mark fid s context with
        | (s, r) => (s, .report r)
      else (s, .report (genReport cfg s))

/-- The reject branch of `resume_from_freeze`: re-enter reasoning via
`_continue_execution`. -/
def resumeRetry (cfg : Config) (mark : Nat) (fid : Option Nat) (s : SysState)
    (context : Ctx) : SysState × RunOutcome :=
  match continueExecution cfg mark fid s context with
  | (s, r) => (s, .report r)

/-- `resume_from_freeze` (scl_core.py lines 599-665): records the human
decision, restores store, evidence cache and loop counter from the
snapshot, thaws, then executes or re-enters reasoning.  The resumed
context is bound as `context = frozen.context` without a copy: no
existing history entry aliases it (the history is not restored and its
Cognition entries alias the interrupted run's own context dict), so the
write-through mark is the history length at this point — but the dict
is the one stored inside the snapshot itself, which stays in
`frozen_states`, so mutations of the resumed context are also written
through to the stored snapshot (`fid` below). -/
def resume_from_freeze (cfg : Config) (s : SysState) (freeze_id : Nat)
    (decision : String) (feedback : Option String)
    (modified_action : Option ProposedAction) (rationale : Option String) :
    SysState × RunOutcome :=
  let (hm, result) := HM.process_human_decision s.hitl freeze_id decision
      feedback modified_action rationale
  let s := { s with hitl := hm }
  match result with
  | .error msg => (s, .error msg)
  | .ok _ _ _ next_action =>
    match s.hitl.getFrozen freeze_id with
    | Option.none => (s, .error "Frozen state not found after processing")
    | some frozen =>
      let m := (s.memory.restore_snapshot frozen.memory_snapshot).restore_evidence
                  frozen.evidence_cache
      let s := { s with memory := m, loop_counter := frozen.loop_counter }
      let (hm, _) := HM.thaw_state s.hitl freeze_id
      let s := { s with hitl := hm }
      let context := frozen.context
      let mark := s.memory.history.length
      match next_action with
      | .execute pa => resumeExec cfg mark (some freeze_id) s frozen pa context
      | .retry_cognition _ =>
          match setCtx mark (some freeze_id) { s with is_resumed := true }
            (ctxUpdate context
              [("human_rejected", .bool true),
               ("rejection_reason", .str (feedback.getD "Action rejected by human")),
               ("retry_guidance",
                .str "Consider alternative approaches based on human feedback")]) with
          | (s, context) => resumeRetry cfg mark (some freeze_id) s context

/-- Concrete cognition output used by witnesses and counterexamples (the
send_email proposal of run_experiment.py's freeze/resume demo). -/
def demoCog : CogOut :=
  ⟨"All weather data collected. Sending email to confirm destination.",
   some ⟨"send_email", [("recipient", .str "test-scl@test.com")]⟩,
   ["weather_sf", "weather_miami", "weather_atlanta"], true, Option.none, false⟩

/-- Concrete memory snapshot for witnesses. -/
def demoMem : MemSnapshot := ⟨[("weather_collected", ⟨.bool true, "", Option.none⟩)], 0⟩

/-- Concrete context for witnesses. -/
def demoCtx : Ctx := [("status", .str "pending_email")]

/-- Concrete metaprompt state for witnesses. -/
def demoMP : MPState := ⟨defaultRules, ""⟩

/-- Trivial engine for witnesses: always proposes the demo output. -/
def demoEngine : CogEnv → CogOut := fun _ => demoCog

/-- Concrete configuration for witnesses (empty tool registry, disabled
HITL). -/
def demoCfg : Config :=
  ⟨defaultPolicy, defaultRules, "", 20, .disabled, [], demoEngine⟩

/-- Whether an audit event is the `state_frozen` event of snapshot `k`. -/
def isFrozenB (k : Nat) (t : HM.HITLTrace) : Bool :=
  t.event_type == HM.EventType.state_frozen && t.freeze_id == some k

/-- Whether an audit event is a `state_thawed` event of snapshot `k`. -/
def isThawedB (k : Nat) (t : HM.HITLTrace) : Bool :=
  t.event_type == HM.EventType.state_thawed && t.freeze_id == some k

/-- Whether an audit event is a terminal-decision event
(approved/rejected/modified). -/
def isDecisionB (t : HM.HITLTrace) : Bool :=
  t.event_type == HM.EventType.approved || t.event_type == HM.EventType.rejected
    || t.event_type == HM.EventType.modified

/-- Number of `state_frozen` audit events for snapshot `k`. -/
def countFrozen (m : HM.MState) (k : Nat) : Nat :=
  (m.hitl_traces.filter (isFrozenB k)).length

/-- One step on a `HITLManager`'s state: a public operation with
arbitrary arguments, or the in-place mutation of a stored snapshot's
context dict performed through the resumed alias
(`context = frozen.context` in `resume_from_freeze`). -/
inductive HMStep : HM.MState → HM.MState → Prop where
  | freeze (m : HM.MState) (lc : Nat) (cog : CogOut) (mem : MemSnapshot)
      (ev : List (String × JVal)) (ctx : Ctx) (mp : MPState) (lvl : ILevel)
      (reason : String) :
      HMStep m (HM.freeze_state m lc cog mem ev ctx mp lvl reason).1
  | thaw (m : HM.MState) (fid : Nat) : HMStep m (HM.thaw_state m fid).1
  | request (m : HM.MState) (fs : HM.Frozen) : HMStep m (HM.request_approval m fs).1
  | decide (m : HM.MState) (fid : Nat) (d : String) (fb : Option String)
      (ma : Option ProposedAction) (ra : Option String) :
      HMStep m (HM.process_human_decision m fid d fb ma ra).1
  | cleanup (m : HM.MState) (fid : Nat) : HMStep m (HM.cleanup_frozen_state m fid)
  | mutate_ctx (m : HM.MState) (k : Nat) (c : Ctx) :
      HMStep m { m with frozen_states := patchFrozenCtx k c m.frozen_states }

/-- Manager states reachable from a fresh manager by public operations. -/
inductive HMReach : HM.MState → Prop where
  | init : HMReach HM.init
  | step (m m' : HM.MState) : HMReach m → HMStep m m' → HMReach m'

/-- Whether an iteration left the loop (a `break` in the source: a final
action executed or a blocked intervention), as opposed to continuing. -/
def IterOut.isHalt : IterOut → Bool
  | .cont _ _ => false
  | .halt _ => true

/-- Whether a resume outcome is the error dictionary. -/
def RunOutcome.isErr : RunOutcome → Bool
  | .error _ => true
  | .report _ => false

/-- The total-loops counter of a resume outcome's report, if any. -/
def RunOutcome.totalLoops : RunOutcome → Option Nat
  | .error _ => Option.none
  | .report r => some r.summary.total_loops

/-- Whether the string occurs as a leaf, array element or object key in
a JSON value. -/
def jvalHasStr (s : String) : JVal → Bool
  | .str t => t = s
  | .acons h t => jvalHasStr s h || jvalHasStr s t
  | .ocons k v t => k = s || jvalHasStr s v || jvalHasStr s t
  | _ => false

/-- String occurrence in an optional string. -/
def optStrHas (s : String) : Option String → Bool
  | some t => t = s
  | Option.none => false

/-- String occurrence in a proposed action. -/
def paHasStr (s : String) (pa : ProposedAction) : Bool :=
  pa.tool_name = s || pa.parameters.any (fun p => p.1 = s || jvalHasStr s p.2)

/-- String occurrence in an optional proposed action. -/
def optPaHasStr (s : String) : Option ProposedAction → Bool
  | some pa => paHasStr s pa
  | Option.none => false

/-- String occurrence in a cognition output. -/
def cogHasStr (s : String) (c : CogOut) : Bool :=
  c.reasoning = s || optPaHasStr s c.proposed_action ||
    c.evidence_refs.any (fun e => e = s)

/-- String occurrence in a working-store entry. -/
def entryHasStr (s : String) (e : StoreEntry) : Bool :=
  jvalHasStr s e.value || e.timestamp = s || optStrHas s e.evidence_id

/-- String occurrence in a working store. -/
def storeHasStr (s : String) (st : List (String × StoreEntry)) : Bool :=
  st.any (fun p => p.1 = s || entryHasStr s p.2)

/-- String occurrence in a context dictionary. -/
def ctxHasStr (s : String) (c : Ctx) : Bool :=
  c.any (fun p => p.1 = s || jvalHasStr s p.2)

/-- String occurrence in a loop trace. -/
def traceHasStr (s : String) (t : LoopTrace) : Bool :=
  t.loop_id = s || t.module = s || jvalHasStr s t.input_state ||
  jvalHasStr s t.output_state || optStrHas s t.decision ||
  (t.evidence_refs.getD []).any (fun e => e = s) ||
  (match t.hitl_event with | some j => jvalHasStr s j | Option.none => false)

/-- String occurrence in a HITL audit event. -/
def hitlTraceHasStr (s : String) (t : HM.HITLTrace) : Bool :=
  paHasStr s t.pending_action || optStrHas s t.human_decision ||
  optStrHas s t.human_feedback || optPaHasStr s t.modified_action ||
  optStrHas s t.decision_rationale || t.actor = s || t.timestamp = s

/-- String occurrence in a frozen snapshot. -/
def frozenHasStr (s : String) (fz : HM.Frozen) : Bool :=
  paHasStr s fz.pending_action || cogHasStr s fz.cognition_output ||
  storeHasStr s fz.memory_snapshot.store ||
  fz.evidence_cache.any (fun p => p.1 = s || jvalHasStr s p.2) ||
  ctxHasStr s fz.context || fz.metaprompt_state.instructions = s ||
  fz.intervention_reason = s

/-- String occurrence in the report summary. -/
def summaryHasStr (s : String) (sm : Summary) : Bool :=
  sm.final_state.stored_values.any (fun p => p.1 = s || jvalHasStr s p.2) ||
  sm.final_state.available_evidence.any (fun e => e = s)

/-- Whether a string occurs anywhere in an audit report (task, traces,
HITL events, frozen snapshots, or summary). -/
def reportMentions (s : String) (r : Report) : Bool :=
  (match r.task with | some j => jvalHasStr s j | Option.none => false) ||
  r.policies.any (fun p => p = s) || r.hitl_mode = s ||
  r.log.any (traceHasStr s) || r.hitl_events.any (hitlTraceHasStr s) ||
  r.hitl_frozen.any (fun p => frozenHasStr s p.2) ||
  summaryHasStr s r.summary

/-- Engine proposing the same non-final weather lookup every loop. -/
def engineNonFinal : CogEnv → CogOut := fun _ =>
  ⟨"check weather", some ⟨"get_weather", [("city", .str "SF")]⟩, ["w1"], false,
   Option.none, false⟩

/-- Engine proposing the same weather lookup marked final. -/
def engineFinal : CogEnv → CogOut := fun _ =>
  ⟨"check weather", some ⟨"get_weather", [("city", .str "SF")]⟩, ["w1"], true,
   Option.none, false⟩

/-- A one-tool registry whose tool succeeds. -/
def weatherTools : List (String × (List (String × JVal) → Except String JVal)) :=
  [("get_weather", fun _ => .ok (.str "sunny"))]

/-- Configuration whose run exhausts the loop ceiling (one loop, never a
final action). -/
def cfgExhaust : Config :=
  ⟨defaultPolicy, defaultRules, "", 1, .disabled, weatherTools, engineNonFinal⟩

/-- Configuration whose run completes cleanly at the same loop count. -/
def cfgComplete : Config :=
  ⟨defaultPolicy, defaultRules, "", 1, .disabled, weatherTools, engineFinal⟩

/-- Engine proposing a final action whose tool always raises. -/
def engineBoom : CogEnv → CogOut := fun _ =>
  ⟨"finish", some ⟨"boom_tool", []⟩, ["w1"], true, Option.none, false⟩

/-- A one-tool registry whose tool always fails. -/
def boomTools : List (String × (List (String × JVal) → Except String JVal)) :=
  [("boom_tool", fun _ => .error "boom")]

/-- Configuration for the failing-final-action run. -/
def cfgBoom : Config :=
  ⟨defaultPolicy, defaultRules, "", 5, .disabled, boomTools, engineBoom⟩

/-- Whether a resume outcome's report mentions the string (false for the
error-dictionary outcome). -/
def RunOutcome.mentions : RunOutcome → String → Bool
  | .error _, _ => false
  | .report r, s => reportMentions s r

/-- Engine proposing a final high-risk `send_email` action (triggers an
approval-level intervention under the default policy). -/
def engineMailBoom : CogEnv → CogOut := fun _ =>
  ⟨"send the mail", some ⟨"send_email", [("recipient", .str "a@b.c")]⟩, ["w1"],
   true, Option.none, false⟩

/-- A one-tool registry whose `send_email` always raises. -/
def mailBoomTools : List (String × (List (String × JVal) → Except String JVal)) :=
  [("send_email", fun _ => .error "smtp down")]

/-- Configuration for the blocked-then-resumed failing final action: no
handler is available, so the high-risk intervention blocks the run and
the action executes only on `resume_from_freeze`. -/
def cfgResumeBoom : Config :=
  ⟨defaultPolicy, defaultRules, "", 5, .noHandler, mailBoomTools, engineMailBoom⟩

/-- The context assembled by `run` after retrieval. -/
def initialContext (task : String) : Ctx :=
  [("task", .str task), ("retrieval_plan", retrievalPlan),
   ("status", .str "in_progress")]

/-- A loop state whose evidence cache already holds the demo tool call
(used to witness the duplicate-call rejection). -/
def demoDupState : SysState :=
  ⟨Memory.init.store_evidence
      (evidenceKey "send_email" [("recipient", JVal.str "test-scl@test.com")]) .null,
   0, HM.init, Option.none, false⟩

/-- Manager state after a concrete freeze followed by an approve
decision (used by witnesses). -/
def demoDecidedM : HM.MState :=
  (HM.process_human_decision
    (HM.freeze_state HM.init 3 demoCog demoMem [] demoCtx demoMP .approve "r").1
    1 "approve" Option.none Option.none Option.none).1

/-- The approved audit event logged by `demoDecidedM` (trace id 2,
following the freeze event). -/
def demoDecTrace : HM.HITLTrace :=
  ⟨2, "", .approved, some 1,
   ⟨"send_email", [("recipient", .str "test-scl@test.com")]⟩,
   some "approve", Option.none, Option.none, Option.none, "human"⟩

/-- Inductive invariant of the manager: freeze events are logged exactly
once per created snapshot id, stored snapshots stay within the id
range, every thaw event is preceded by the matching freeze event, and
every decision event carries the `"human"` actor tag. -/
structure HMInv (m : HM.MState) : Prop where
  created_once : ∀ k, 1 ≤ k → k ≤ m.freeze_counter → countFrozen m k = 1
  uncreated_none : ∀ k, m.freeze_counter < k → countFrozen m k = 0
  store_bounded : ∀ p ∈ m.frozen_states, 1 ≤ p.1 ∧ p.1 ≤ m.freeze_counter
  thawed_after_frozen : ∀ (i k : Nat) (t : HM.HITLTrace),
    m.hitl_traces[i]? = some t → isThawedB k t = true →
    ∃ (j : Nat) (u : HM.HITLTrace), j < i ∧ m.hitl_traces[j]? = some u ∧
      isFrozenB k u = true
  decisions_human : ∀ t ∈ m.hitl_traces, isDecisionB t = true → t.actor = "human"

namespace PH

/-
  Heap model of Python object identity, used to verify the deep-copy and
  aliasing behaviour of `HITLManager.freeze_state` (hitl_module.py lines
  227-243).  Mutable dictionaries live on a heap addressed by naturals;
  `copy.deepcopy` re-allocates every reachable dictionary, while a plain
  assignment such as `pending_action = cognition_output.get(
  "proposed_action", {})` shares the reference with the live object.
-/

/-- Atomic (immutable) Python values. -/
inductive Prim : Type where
  | s (v : String)
  | i (v : Int)
  | b (v : Bool)
  | none
  deriving DecidableEq, Repr

/-- Heap values: atoms, or references to mutable dict objects. -/
inductive HVal : Type where
  | prim (p : Prim)
  | ref (a : Nat)
  deriving DecidableEq, Repr

/-- A dict object: its field list. -/
abbrev HObj := List (String × HVal)

/-- A heap: the object store and the allocation pointer. -/
structure Heap : Type where
  objs : Nat → Option HObj
  next : Nat

/-- In-place mutation of the object at an address (the model of mutating
a live Python dict). -/
def setObj (h : Heap) (a : Nat) (o : HObj) : Heap :=
  ⟨fun b => if b = a then some o else h.objs b, h.next⟩

/-- Allocation of a fresh object at the allocation pointer. -/
def allocH (h : Heap) (o : HObj) : Heap :=
  ⟨fun b => if b = h.next then some o else h.objs b, h.next + 1⟩

/-- Structure copy of the fields of one object, threading the heap. -/
def dcFields (dcv : Heap → HVal → Option (Heap × HVal)) :
    Heap → HObj → Option (Heap × HObj)
  | h, [] => some (h, [])
  | h, (k, v) :: rest =>
      match dcv h v with
      | Option.none => Option.none
      | some (h₁, v₁) =>
          match dcFields dcv h₁ rest with
          | Option.none => Option.none
          | some (h₂, r₁) => some (h₂, (k, v₁) :: r₁)

/-- `copy.deepcopy` with a recursion-depth fuel: atoms are shared, every
reachable dict is re-allocated fresh.  (Python's memo table only
preserves internal sharing, which is invisible to the flattened value;
the fuel bounds the recursion depth and any value of sufficient depth
gives the same result.) -/
def dcVal : Nat → Heap → HVal → Option (Heap × HVal)
  | _, h, .prim p => some (h, .prim p)
  | 0, _, .ref _ => Option.none
  | n + 1, h, .ref a =>
      match h.objs a with
      | Option.none => Option.none
      | some o =>
          match dcFields (dcVal n) h o with
          | Option.none => Option.none
          | some (h₁, o₁) => some (allocH h₁ o₁, .ref h₁.next)

/-- Fully evaluated, heap-free value trees (deep equality compares
these). -/
inductive PTree : Type where
  | prim (p : Prim)
  | onil
  | ocons (k : String) (v : PTree) (t : PTree)
  deriving DecidableEq, Repr

/-- Flattening of the fields of one object. -/
def flatFields (fv : HVal → Option PTree) : HObj → Option PTree
  | [] => some .onil
  | (k, v) :: rest =>
      match fv v with
      | Option.none => Option.none
      | some t =>
          match flatFields fv rest with
          | Option.none => Option.none
          | some r => some (.ocons k t r)

/-- Flattening of a heap value into a tree (deep read). -/
def flatVal : Nat → Heap → HVal → Option PTree
  | _, _, .prim p => some (.prim p)
  | 0, _, .ref _ => Option.none
  | n + 1, h, .ref a =>
      match h.objs a with
      | Option.none => Option.none
      | some o => flatFields (flatVal n h) o

/-- All references of a value lie in the address interval [lo, hi). -/
def ValIn (lo hi : Nat) : HVal → Prop
  | .prim _ => True
  | .ref a => lo ≤ a ∧ a < hi

/-- All references of an object lie in [lo, hi). -/
def ObjIn (lo hi : Nat) (o : HObj) : Prop := ∀ p ∈ o, ValIn lo hi p.2

/-- The region [lo, h.next) is closed: every address there holds an
object whose references stay in the region. -/
def Region (h : Heap) (lo : Nat) : Prop :=
  ∀ a, lo ≤ a → a < h.next → ∃ o, h.objs a = some o ∧ ObjIn lo h.next o

/-- Well-formed heap: nothing lives at or above the allocation pointer. -/
def WF (h : Heap) : Prop := ∀ a, h.next ≤ a → h.objs a = Option.none

/-- Python `d.get(key)` through a reference. -/
def getKey (h : Heap) (v : HVal) (k : String) : Option HVal :=
  match v with
  | .ref a => (h.objs a).bind (fun o => alistGet o k)
  | .prim _ => Option.none

/-- A frozen snapshot at heap level (`FrozenCognitiveState` built by
`freeze_state`): `pending_action` holds the value read live from the
cognition output, the five state components hold deep copies. -/
structure FrozenH : Type where
  freeze_id : Nat
  loop_counter : Nat
  pending_action : HVal
  cognition_output : HVal
  memory_snapshot : HVal
  evidence_cache : HVal
  context : HVal
  metaprompt_state : HVal
  intervention_level : ILevel
  intervention_reason : String

/-- `HITLManager.freeze_state` at heap level (hitl_module.py lines
227-243): `pending_action` is the aliased live
`cognition_output.get("proposed_action", {})` (a fresh empty dict when
the key is missing), while the cognition output, memory state, evidence
cache, context and metaprompt state are deep-copied. -/
def freezeH (fuel : Nat) (h : Heap) (freeze_id loop_counter : Nat)
    (cog mem ev ctx mp : HVal) (lvl : ILevel) (reason : String) :
    Option (Heap × FrozenH) :=
  match (match getKey h cog "proposed_action" with
         | some v => (h, v)
         | Option.none => (allocH h [], HVal.ref h.next)) with
  | (h₀, pending) =>
    match dcVal fuel h₀ cog with
    | Option.none => Option.none
    | some (h₁, cog₁) =>
      match dcVal fuel h₁ mem with
      | Option.none => Option.none
      | some (h₂, mem₁) =>
        match dcVal fuel h₂ ev with
        | Option.none => Option.none
        | some (h₃, ev₁) =>
          match dcVal fuel h₃ ctx with
          | Option.none => Option.none
          | some (h₄, ctx₁) =>
            match dcVal fuel h₄ mp with
            | Option.none => Option.none
            | some (h₅, mp₁) =>
              some (h₅, ⟨freeze_id, loop_counter, pending, cog₁, mem₁, ev₁,
                ctx₁, mp₁, lvl, reason⟩)

/-- Concrete live heap for the counterexample: address 0 holds the
proposed action, address 1 the cognition output aliasing it, addresses
2-5 the store, evidence cache, context and metaprompt state. -/
def demoHeap : Heap :=
  ⟨fun a =>
    if a = 0 then some [("tool_name", .prim (.s "send_email"))]
    else if a = 1 then
      some [("proposed_action", .ref 0), ("reasoning", .prim (.s "r"))]
    else if a = 2 then some [("weather_collected", .prim (.b true))]
    else if a = 3 then some []
    else if a = 4 then some [("status", .prim (.s "pending_email"))]
    else if a = 5 then some []
    else Option.none, 6⟩

/-- The concrete freeze of the demo heap. -/
def demoFreeze : Option (Heap × FrozenH) :=
  freezeH 10 demoHeap 1 3 (.ref 1) (.ref 2) (.ref 3) (.ref 4) (.ref 5)
    .approve "High-risk tool: send_email"

/-- Fallback snapshot (unused: the demo freeze succeeds). -/
def dummySnap : FrozenH :=
  ⟨0, 0, .prim .none, .prim .none, .prim .none, .prim .none, .prim .none,
   .prim .none, .none, ""⟩

/-- The snapshot produced by the demo freeze. -/
def demoSnap : FrozenH := (demoFreeze.map Prod.snd).getD dummySnap

/-- The heap after the demo freeze. -/
def demoHeap5 : Heap := (demoFreeze.map Prod.fst).getD demoHeap

/-- The live heap after the demo freeze and an in-place mutation of the
live proposed-action dict at address 0. -/
def demoMutated : Heap := setObj demoHeap5 0 [("tool_name", .prim (.s "rm_all"))]

/-- Specification of one copying step: the result heap is well formed,
the heap only grows, old addresses are untouched, and closed regions
stay closed. -/
def CopySpec (h h₁ : Heap) : Prop :=
  WF h₁ ∧ h.next ≤ h₁.next ∧ (∀ a, a < h.next → h₁.objs a = h.objs a) ∧
  (∀ lo, lo ≤ h.next → Region h lo → Region h₁ lo)

instance (lo hi : Nat) (v : HVal) : Decidable (ValIn lo hi v) := by
  cases v with
  | prim p => exact isTrue trivial
  | ref a => exact inferInstanceAs (Decidable (lo ≤ a ∧ a < hi))

instance (lo hi : Nat) (o : HObj) : Decidable (ObjIn lo hi o) :=
  inferInstanceAs (Decidable (∀ p ∈ o, ValIn lo hi p.2))

end PH

/-- C4: the intervention policy's `evaluate` follows the first-match-wins
rule order — high-risk set → approve, always-confirm set → confirm,
final-action option → confirm, loop-count threshold → notify, low
confidence → confirm, missing evidence → notify, registered custom rule,
default none.  In particular a capability in the high-risk set always
yields `approve`, regardless of confidence, loop counter, evidence state
or any registered custom handler. -/
theorem C4_policy_order (p : PolicyCfg) (out : CogOut) (ctx : Ctx) (lc : Nat) :
    (fun tn =>
      (tn ∈ p.high_risk_tools →
        evaluate p out ctx lc = (.approve, "High-risk tool: " ++ tn))
      ∧ (tn ∉ p.high_risk_tools → tn ∈ p.always_confirm_tools →
        evaluate p out ctx lc = (.confirm, "Confirmation required for: " ++ tn))
      ∧ (tn ∉ p.high_risk_tools → tn ∉ p.always_confirm_tools →
        p.confirm_on_final_action = true → out.is_final_action = true →
        evaluate p out ctx lc = (.confirm, "Final action requires confirmation"))
      ∧ (tn ∉ p.high_risk_tools → tn ∉ p.always_confirm_tools →
        ¬ (p.confirm_on_final_action = true ∧ out.is_final_action = true) →
        p.confirm_after_n_loops ≤ lc →
        evaluate p out ctx lc = (.notify, "Extended loop count: " ++ toString lc))
      ∧ (tn ∉ p.high_risk_tools → tn ∉ p.always_confirm_tools →
        ¬ (p.confirm_on_final_action = true ∧ out.is_final_action = true) →
        lc < p.confirm_after_n_loops →
        out.confidence.getD 1 < p.confirm_on_confidence_below →
        evaluate p out ctx lc =
          (.confirm, "Low confidence: " ++ fmt2 (out.confidence.getD 1)))
      ∧ (tn ∉ p.high_risk_tools → tn ∉ p.always_confirm_tools →
        ¬ (p.confirm_on_final_action = true ∧ out.is_final_action = true) →
        lc < p.confirm_after_n_loops →
        ¬ out.confidence.getD 1 < p.confirm_on_confidence_below →
        p.confirm_on_missing_evidence = true → out.evidence_refs = [] →
        evaluate p out ctx lc = (.notify, "Missing evidence citations"))
      ∧ (∀ h, tn ∉ p.high_risk_tools → tn ∉ p.always_confirm_tools →
        ¬ (p.confirm_on_final_action = true ∧ out.is_final_action = true) →
        lc < p.confirm_after_n_loops →
        ¬ out.confidence.getD 1 < p.confirm_on_confidence_below →
        ¬ (p.confirm_on_missing_evidence = true ∧ out.evidence_refs = []) →
        p.custom_handlers tn = some h →
        evaluate p out ctx lc = h out ctx)
      ∧ (tn ∉ p.high_risk_tools → tn ∉ p.always_confirm_tools →
        ¬ (p.confirm_on_final_action = true ∧ out.is_final_action = true) →
        lc < p.confirm_after_n_loops →
        ¬ out.confidence.getD 1 < p.confirm_on_confidence_below →
        ¬ (p.confirm_on_missing_evidence = true ∧ out.evidence_refs = []) →
        p.custom_handlers tn = Option.none →
        evaluate p out ctx lc = (.none, "")))
    (out.proposed_action.getD ProposedAction.empty).tool_name := by
  refine ⟨?_, ?_, ?_, ?_, ?_, ?_, ?_, ?_⟩
  · intro h1
    simp [evaluate, h1]
  · intro h1 h2
    simp [evaluate, h1, h2]
  · intro h1 h2 h3 h4
    simp [evaluate, h1, h2, h3, h4]
  · intro h1 h2 h3 h4
    simp only [evaluate, if_neg h1, if_neg h2]
    rw [if_neg, if_pos h4]
    intro hc
    exact h3 ⟨by simpa using hc.1, by simpa using hc.2⟩
  · intro h1 h2 h3 h4 h5
    simp only [evaluate, if_neg h1, if_neg h2]
    rw [if_neg, if_neg (by omega), if_pos h5]
    intro hc
    exact h3 ⟨by simpa using hc.1, by simpa using hc.2⟩
  · intro h1 h2 h3 h4 h5 h6 h7
    simp only [evaluate, if_neg h1, if_neg h2]
    rw [if_neg, if_neg (by omega), if_neg h5, if_pos (by exact ⟨by simp [h6], h7⟩)]
    intro hc
    exact h3 ⟨by simpa using hc.1, by simpa using hc.2⟩
  · intro h h1 h2 h3 h4 h5 h6 h7
    simp only [evaluate, if_neg h1, if_neg h2]
    rw [if_neg, if_neg (by omega), if_neg h5, if_neg, h7]
    · intro hc
      exact h6 ⟨by simpa using hc.1, hc.2⟩
    · intro hc
      exact h3 ⟨by simpa using hc.1, by simpa using hc.2⟩
  · intro h1 h2 h3 h4 h5 h6 h7
    simp only [evaluate, if_neg h1, if_neg h2]
    rw [if_neg, if_neg (by omega), if_neg h5, if_neg, h7]
    · intro hc
      exact h6 ⟨by simpa using hc.1, hc.2⟩
    · intro hc
      exact h3 ⟨by simpa using hc.1, by simpa using hc.2⟩

/-- The decision of `process_human_decision` leaves the snapshot store
untouched (the snapshot is neither removed nor marked as decided). -/
theorem HM.process_frozen_preserved (m : HM.MState) (fid : Nat) (d : String)
    (fb : Option String) (ma : Option ProposedAction) (ra : Option String) :
    (HM.process_human_decision m fid d fb ma ra).1.frozen_states = m.frozen_states := by
  unfold HM.process_human_decision
  cases h : m.getFrozen fid
  · rfl
  · simp only [HM.logTrace]
    split <;> rfl

/-- A decision against a present snapshot with a valid decision value
always succeeds. -/
theorem HM.process_ok_of_present (m : HM.MState) (fid : Nat) (d : String)
    (fb : Option String) (ma : Option ProposedAction) (ra : Option String)
    (hfid : (m.getFrozen fid).isSome)
    (hd : d = "approve" ∨ d = "reject" ∨ d = "modify") :
    (HM.process_human_decision m fid d fb ma ra).2.isError = false := by
  unfold HM.process_human_decision
  cases h : m.getFrozen fid
  · rw [h] at hfid; simp at hfid
  · rcases hd with hd | hd | hd <;> subst hd <;> simp [HM.logTrace, HM.DecisionResult.isError]

/-- Witness for C4: a concrete high-risk capability (`send_email` under
the default policy) with low confidence, high loop count, empty
evidence and final flag set still evaluates to `approve`. -/
theorem C4_policy_order_witness :
    evaluate defaultPolicy
      ⟨"r", some ⟨"send_email", []⟩, [], true, some (1/10), false⟩ [] 50
      = (.approve, "High-risk tool: send_email") :=
  (C4_policy_order defaultPolicy
      ⟨"r", some ⟨"send_email", []⟩, [], true, some (1/10), false⟩ [] 50).1
    (by simp [defaultPolicy, ProposedAction.empty])

/-- C1 counterexample: after a freeze and a first successful approve
decision, a second call of `process_human_decision` on the same
identifier with the same decision succeeds again (no unknown-snapshot
or already-decided error), refuting the at-most-once claim. -/
theorem C1_second_decision_succeeds :
    (let m1 := (HM.freeze_state HM.init 3 demoCog demoMem [] demoCtx demoMP
                  .approve "High-risk tool: send_email").1
     let r1 := HM.process_human_decision m1 1 "approve" Option.none Option.none Option.none
     let r2 := HM.process_human_decision r1.1 1 "approve" Option.none Option.none Option.none
     r1.2.isError = false ∧ r2.2.isError = false) := by decide

/-- C1 (amended): a decision on a snapshot identifier present in the
store always succeeds, and the decision is not recorded as terminal: the
snapshot store is left unchanged, so a second call on the same
identifier (even with the same decision) succeeds again.  The operation
fails only when the identifier is absent from the store. -/
theorem C1_amended_decision_not_terminal (m : HM.MState) (fid : Nat) (d : String)
    (fb : Option String) (ma : Option ProposedAction) (ra : Option String)
    (hfid : (m.getFrozen fid).isSome)
    (hd : d = "approve" ∨ d = "reject" ∨ d = "modify") :
    (HM.process_human_decision m fid d fb ma ra).2.isError = false ∧
    (HM.process_human_decision m fid d fb ma ra).1.getFrozen fid = m.getFrozen fid ∧
    (HM.process_human_decision
      (HM.process_human_decision m fid d fb ma ra).1 fid d fb ma ra).2.isError
        = false := by
  have hpres : ∀ m' : HM.MState,
      (HM.process_human_decision m' fid d fb ma ra).1.getFrozen fid = m'.getFrozen fid := by
    intro m'
    unfold HM.MState.getFrozen
    rw [HM.process_frozen_preserved]
  refine ⟨HM.process_ok_of_present m fid d fb ma ra hfid hd, hpres m, ?_⟩
  apply HM.process_ok_of_present _ _ _ _ _ _ _ hd
  rw [hpres m]
  exact hfid

/-- Witness for C1 (amended), at the concrete demo freeze. -/
theorem C1_amended_decision_not_terminal_witness :
    (((HM.freeze_state HM.init 3 demoCog demoMem [] demoCtx demoMP .approve
        "High-risk tool: send_email").1.getFrozen 1).isSome = true) ∧
    ((HM.process_human_decision
        (HM.freeze_state HM.init 3 demoCog demoMem [] demoCtx demoMP .approve
          "High-risk tool: send_email").1
        1 "approve" Option.none Option.none Option.none).2.isError = false ∧
     (HM.process_human_decision
        (HM.freeze_state HM.init 3 demoCog demoMem [] demoCtx demoMP .approve
          "High-risk tool: send_email").1
        1 "approve" Option.none Option.none Option.none).1.getFrozen 1
       = (HM.freeze_state HM.init 3 demoCog demoMem [] demoCtx demoMP .approve
            "High-risk tool: send_email").1.getFrozen 1 ∧
     (HM.process_human_decision
        (HM.process_human_decision
          (HM.freeze_state HM.init 3 demoCog demoMem [] demoCtx demoMP .approve
            "High-risk tool: send_email").1
          1 "approve" Option.none Option.none Option.none).1
        1 "approve" Option.none Option.none Option.none).2.isError = false) :=
  ⟨by decide,
   C1_amended_decision_not_terminal _ 1 "approve" Option.none Option.none Option.none
     (by decide) (Or.inl rfl)⟩

/-- C7: a decision against an absent snapshot identifier, and a decision
value outside approve/reject/modify, each return an explicit error
dictionary with no state mutated — no audit event is appended and the
snapshot store is untouched; likewise `resume_from_freeze` against an
absent identifier returns the error and leaves the whole loop state
unchanged. -/
theorem C7_invalid_decision_no_mutation (m : HM.MState) (fid : Nat) (d : String)
    (fb : Option String) (ma : Option ProposedAction) (ra : Option String)
    (cfg : Config) (s : SysState) :
    (m.getFrozen fid = Option.none →
      HM.process_human_decision m fid d fb ma ra
        = (m, .error ("Frozen state not found: " ++ HM.freezeName fid)))
    ∧ ((m.getFrozen fid).isSome → d ≠ "approve" → d ≠ "reject" → d ≠ "modify" →
      HM.process_human_decision m fid d fb ma ra
        = (m, .error ("Invalid decision: " ++ d)))
    ∧ (s.hitl.getFrozen fid = Option.none →
      resume_from_freeze cfg s fid d fb ma ra
        = (s, .error ("Frozen state not found: " ++ HM.freezeName fid))) := by
  refine ⟨?_, ?_, ?_⟩
  · intro h
    unfold HM.process_human_decision
    rw [h]
  · intro h h1 h2 h3
    unfold HM.process_human_decision
    cases hg : m.getFrozen fid
    · rw [hg] at h; simp at h
    · simp [h1, h2, h3]
  · intro h
    unfold resume_from_freeze HM.process_human_decision
    rw [h]

/-- Witness for C7, at concrete fresh states (identifier 1 absent, and
an invalid decision value on a present snapshot). -/
theorem C7_invalid_decision_no_mutation_witness :
    (HM.init.getFrozen 1 = Option.none ∧
      HM.process_human_decision HM.init 1 "approve" Option.none Option.none Option.none
        = (HM.init, .error ("Frozen state not found: " ++ HM.freezeName 1))) ∧
    (resume_from_freeze demoCfg SysState.init 1 "approve"
        Option.none Option.none Option.none
      = (SysState.init, .error ("Frozen state not found: " ++ HM.freezeName 1))) ∧
    (HM.process_human_decision
        (HM.freeze_state HM.init 3 demoCog demoMem [] demoCtx demoMP .approve
          "r").1 1 "defer" Option.none Option.none Option.none
      = ((HM.freeze_state HM.init 3 demoCog demoMem [] demoCtx demoMP .approve
          "r").1, .error ("Invalid decision: " ++ "defer"))) :=
  ⟨⟨by decide,
    (C7_invalid_decision_no_mutation HM.init 1 "approve" Option.none Option.none
      Option.none demoCfg SysState.init).1 (by decide)⟩,
   (C7_invalid_decision_no_mutation HM.init 1 "approve" Option.none Option.none
      Option.none demoCfg SysState.init).2.2 (by decide),
   (C7_invalid_decision_no_mutation
      (HM.freeze_state HM.init 3 demoCog demoMem [] demoCtx demoMP .approve "r").1
      1 "defer" Option.none Option.none Option.none demoCfg SysState.init).2.1
    (by decide) (by decide) (by decide) (by decide)⟩

/-- Appending one audit event changes the frozen-event count by one
exactly when the event is the frozen event of that id. -/
theorem countFrozen_append (l : List HM.HITLTrace) (t : HM.HITLTrace) (k : Nat) :
    ((l ++ [t]).filter (isFrozenB k)).length
      = (l.filter (isFrozenB k)).length + (if isFrozenB k t = true then 1 else 0) := by
  rw [List.filter_append, List.length_append]
  cases h : isFrozenB k t <;> simp [List.filter, h]

/-- Appending an event preserves the thaw-after-freeze ordering provided
the appended event, when it is a thaw of `k`, already has a matching
frozen event in the log. -/
theorem thawOrder_append (l : List HM.HITLTrace) (t : HM.HITLTrace)
    (H : ∀ (i k : Nat) (u : HM.HITLTrace), l[i]? = some u → isThawedB k u = true →
      ∃ (j : Nat) (v : HM.HITLTrace), j < i ∧ l[j]? = some v ∧ isFrozenB k v = true)
    (Ht : ∀ k, isThawedB k t = true → ∃ v ∈ l, isFrozenB k v = true) :
    ∀ (i k : Nat) (u : HM.HITLTrace), (l ++ [t])[i]? = some u → isThawedB k u = true →
      ∃ (j : Nat) (v : HM.HITLTrace), j < i ∧ (l ++ [t])[j]? = some v ∧
        isFrozenB k v = true := by
  intro i k u hu hthaw
  by_cases hi : i < l.length
  · rw [List.getElem?_append, if_pos hi] at hu
    obtain ⟨j, v, hj, hv, hf⟩ := H i k u hu hthaw
    refine ⟨j, v, hj, ?_, hf⟩
    rw [List.getElem?_append, if_pos (by omega)]
    exact hv
  · have hil : i = l.length := by
      by_contra hne
      have hlen : (l ++ [t]).length ≤ i := by
        simp only [List.length_append, List.length_singleton]
        omega
      rw [List.getElem?_eq_none hlen] at hu
      exact Option.noConfusion hu
    subst hil
    rw [List.getElem?_append, if_neg (by omega)] at hu
    simp only [Nat.sub_self, List.getElem?_cons_zero, Option.some.injEq] at hu
    subst hu
    obtain ⟨v, hvmem, hf⟩ := Ht k hthaw
    obtain ⟨j, hj⟩ := List.mem_iff_getElem?.mp hvmem
    have hjl : j < l.length := by
      by_contra hge
      rw [List.getElem?_eq_none (by omega)] at hj
      exact Option.noConfusion hj
    refine ⟨j, v, hjl, ?_, hf⟩
    rw [List.getElem?_append, if_pos hjl]
    exact hj

/-- A frozen-event count of one yields a frozen event in the log. -/
theorem exists_frozen_of_count_one (m : HM.MState) (k : Nat)
    (h : countFrozen m k = 1) : ∃ v ∈ m.hitl_traces, isFrozenB k v = true := by
  unfold countFrozen at h
  have hne : m.hitl_traces.filter (isFrozenB k) ≠ [] := by
    intro hnil
    rw [hnil] at h
    simp at h
  obtain ⟨v, hv⟩ := List.exists_mem_of_ne_nil _ hne
  exact ⟨v, (List.mem_filter.mp hv).1, (List.mem_filter.mp hv).2⟩

/-- A successful snapshot lookup yields a store entry. -/
theorem getFrozen_mem (m : HM.MState) (fid : Nat) (fz : HM.Frozen)
    (h : m.getFrozen fid = some fz) : (fid, fz) ∈ m.frozen_states := by
  unfold HM.MState.getFrozen at h
  cases hf : m.frozen_states.find? (fun p => p.1 = fid) with
  | none => rw [hf] at h; exact Option.noConfusion h
  | some p =>
      rw [hf] at h
      have h2 : p.2 = fz := by simpa using h
      have hp := List.find?_some hf
      have hmem := List.mem_of_find?_eq_some hf
      have hfst : p.1 = fid := by simpa using hp
      cases p with
      | mk a b =>
          simp only at hfst h2
          subst hfst
          subst h2
          exact hmem

/-- The fresh manager satisfies the invariant. -/
theorem hminv_init : HMInv HM.init := by
  refine ⟨?_, ?_, ?_, ?_, ?_⟩
  · intro k h1 hk
    exact absurd (h1.trans hk) (by decide)
  · intro k _
    rfl
  · intro p hp
    exact absurd hp (List.not_mem_nil p)
  · intro i k t ht _
    rw [List.getElem?_eq_none (Nat.zero_le i)] at ht
    exact Option.noConfusion ht
  · intro t ht _
    exact absurd ht (List.not_mem_nil t)

/-- Appending a non-freeze audit event (with the trace counter bump of
`_log_trace`) preserves the invariant, provided a thaw event has a
matching frozen event and a decision event carries the human actor. -/
theorem hminv_extend (m : HM.MState) (inv : HMInv m) (t : HM.HITLTrace)
    (hnf : ∀ k, isFrozenB k t = false)
    (hth : ∀ k, isThawedB k t = true → ∃ v ∈ m.hitl_traces, isFrozenB k v = true)
    (hdec : isDecisionB t = true → t.actor = "human") :
    HMInv { m with hitl_traces := m.hitl_traces ++ [t],
                   trace_counter := m.trace_counter + 1 } := by
  constructor
  · intro k h1 hk
    have h := inv.created_once k h1 hk
    unfold countFrozen at h ⊢
    rw [countFrozen_append, h, hnf k]
    rfl
  · intro k hk
    have h := inv.uncreated_none k hk
    unfold countFrozen at h ⊢
    rw [countFrozen_append, h, hnf k]
    rfl
  · intro p hp
    exact inv.store_bounded p hp
  · exact thawOrder_append m.hitl_traces t inv.thawed_after_frozen hth
  · intro u hu hdu
    rcases List.mem_append.mp hu with h | h
    · exact inv.decisions_human u h hdu
    · simp only [List.mem_singleton] at h
      subst h
      exact hdec hdu

/-- The freeze operation preserves the invariant: it logs exactly one
frozen event bearing the freshly allocated id. -/
theorem hminv_freeze (m : HM.MState) (inv : HMInv m) (lc : Nat) (cog : CogOut)
    (mem : MemSnapshot) (ev : List (String × JVal)) (ctx : Ctx) (mp : MPState)
    (lvl : ILevel) (reason : String) :
    HMInv (HM.freeze_state m lc cog mem ev ctx mp lvl reason).1 := by
  unfold HM.freeze_state HM.logTrace
  simp only
  constructor
  · intro k h1 hk
    rw [countFrozen, countFrozen_append]
    by_cases hke : k = m.freeze_counter + 1
    · subst hke
      have h0 := inv.uncreated_none (m.freeze_counter + 1) (by omega)
      rw [countFrozen] at h0
      rw [h0, if_pos (by simp [isFrozenB])]
    · have hk2 : k ≤ m.freeze_counter := by
        simp only at hk
        omega
      have h1' := inv.created_once k h1 hk2
      rw [countFrozen] at h1'
      rw [h1', if_neg (by simp [isFrozenB]; omega)]
  · intro k hk
    simp only at hk
    rw [countFrozen, countFrozen_append]
    have h0 := inv.uncreated_none k (by omega)
    rw [countFrozen] at h0
    rw [h0, if_neg (by simp [isFrozenB]; omega)]
  · intro p hp
    simp only at hp
    rcases List.mem_append.mp hp with h | h
    · obtain ⟨ha, hb⟩ := inv.store_bounded p h
      refine ⟨ha, ?_⟩
      show p.1 ≤ m.freeze_counter + 1
      omega
    · simp only [List.mem_singleton] at h
      subst h
      refine ⟨?_, ?_⟩
      · show 1 ≤ m.freeze_counter + 1
        omega
      · show m.freeze_counter + 1 ≤ m.freeze_counter + 1
        omega
  · refine thawOrder_append m.hitl_traces _ inv.thawed_after_frozen ?_
    intro k hk
    simp [isThawedB] at hk
  · intro u hu hdu
    simp only at hu
    rcases List.mem_append.mp hu with h | h
    · exact inv.decisions_human u h hdu
    · simp only [List.mem_singleton] at h
      subst h
      simp [isDecisionB] at hdu

/-- The snapshot-context write-through keeps every entry's identifier. -/
theorem patchFrozenCtx_keys (k : Nat) (c : Ctx) (l : List (Nat × HM.Frozen)) :
    ∀ p ∈ patchFrozenCtx k c l, ∃ q ∈ l, p.1 = q.1 := by
  induction l with
  | nil => intro p hp; cases hp
  | cons a rest ih =>
      obtain ⟨i, fz⟩ := a
      intro p hp
      rcases List.mem_cons.mp hp with h | h
      · refine ⟨(i, fz), List.mem_cons_self _ _, ?_⟩
        rw [h]
        split <;> rfl
      · obtain ⟨q, hq, he⟩ := ih p h
        exact ⟨q, List.mem_cons_of_mem _ hq, he⟩

/-- Every manager step preserves the invariant. -/
theorem hminv_step (m m' : HM.MState) (inv : HMInv m) (h : HMStep m m') :
    HMInv m' := by
  cases h with
  | freeze lc cog mem ev ctx mp lvl reason =>
      exact hminv_freeze m inv lc cog mem ev ctx mp lvl reason
  | thaw fid =>
      unfold HM.thaw_state
      cases hg : m.getFrozen fid with
      | none => exact inv
      | some fz =>
          unfold HM.logTrace
          simp only
          refine hminv_extend m inv _ (fun k => by simp [isFrozenB]) ?_
            (fun hd => by simp [isDecisionB] at hd)
          intro k hk
          have hkf : k = fid := by
            simp [isThawedB] at hk
            omega
          subst hkf
          have hmem := getFrozen_mem m k fz hg
          obtain ⟨h1, h2⟩ := inv.store_bounded _ hmem
          exact exists_frozen_of_count_one m k (inv.created_once k h1 h2)
  | request fs =>
      unfold HM.request_approval HM.logTrace
      simp only
      refine hminv_extend m inv _ (fun k => by simp [isFrozenB])
        (fun k hk => by simp [isThawedB] at hk)
        (fun hd => by simp [isDecisionB] at hd)
  | decide fid d fb ma ra =>
      unfold HM.process_human_decision
      cases hg : m.getFrozen fid with
      | none => exact inv
      | some fz =>
          by_cases h1 : d = "approve"
          · simp only [h1, if_pos rfl]
            unfold HM.logTrace
            exact hminv_extend m inv _ (fun k => by simp [isFrozenB])
              (fun k hk => by simp [isThawedB] at hk) (fun _ => rfl)
          · by_cases h2 : d = "reject"
            · simp only [if_neg h1, h2, if_pos rfl]
              unfold HM.logTrace
              exact hminv_extend m inv _ (fun k => by simp [isFrozenB])
                (fun k hk => by simp [isThawedB] at hk) (fun _ => rfl)
            · by_cases h3 : d = "modify"
              · simp only [if_neg h1, if_neg h2, h3, if_pos rfl]
                unfold HM.logTrace
                exact hminv_extend m inv _ (fun k => by simp [isFrozenB])
                  (fun k hk => by simp [isThawedB] at hk) (fun _ => rfl)
              · simp only [if_neg h1, if_neg h2, if_neg h3]
                exact inv
  | cleanup fid =>
      unfold HM.cleanup_frozen_state
      constructor
      · exact inv.created_once
      · exact inv.uncreated_none
      · intro p hp
        exact inv.store_bounded p (List.mem_of_mem_filter hp)
      · exact inv.thawed_after_frozen
      · exact inv.decisions_human
  | mutate_ctx k c =>
      constructor
      · exact inv.created_once
      · exact inv.uncreated_none
      · intro p hp
        obtain ⟨q, hq, he⟩ := patchFrozenCtx_keys k c m.frozen_states p hp
        rw [he]
        exact inv.store_bounded q hq
      · exact inv.thawed_after_frozen
      · exact inv.decisions_human

/-- Every reachable manager state satisfies the invariant. -/
theorem hminv_reach (m : HM.MState) (h : HMReach m) : HMInv m := by
  induction h with
  | init => exact hminv_init
  | step m m' _ hs ih => exact hminv_step m m' ih hs

/-- The Action module leaves the manager state unchanged. -/
theorem action_hitl (cfg : Config) (s : SysState) (out : CogOut)
    (mod : Option ProposedAction) : (action cfg s out mod).1.hitl = s.hitl := by
  simp only [action]
  split
  · rfl
  · split <;> rfl

/-- A context write-through never touches the loop counter or the
resume flags, and returns the new context value unchanged. -/
theorem setCtx_state (mark : Nat) (fid : Option Nat) (s : SysState) (c : Ctx) :
    (setCtx mark fid s c).1.loop_counter = s.loop_counter ∧
    (setCtx mark fid s c).2 = c := ⟨rfl, rfl⟩

/-- A context write-through preserves manager reachability: it is either
the identity on the manager (run-path contexts) or the in-place
snapshot-context mutation step (resumed contexts). -/
theorem reach_setCtx (mark : Nat) (fid : Option Nat) (s : SysState) (c : Ctx)
    (h : HMReach s.hitl) : HMReach (setCtx mark fid s c).1.hitl := by
  cases fid with
  | none => exact h
  | some k => exact HMReach.step _ _ h (HMStep.mutate_ctx s.hitl k c)

/-- The output write-through of `control` touches only the history. -/
theorem control_hitl (cfg : Config) (s : SysState) (out : CogOut) :
    (control cfg s out).1.hitl = s.hitl := by
  simp only [control]
  split <;> rfl

/-- Element lookup through the context write-through. -/
theorem patchFrom_getElem (mark : Nat) (c : Ctx) (j i : Nat)
    (l : List LoopTrace) :
    (patchFrom mark c j l)[i]? = (l[i]?).map (fun t =>
      if mark ≤ j + i ∧ t.module = "Cognition"
      then { t with input_state := ctxJ c } else t) := by
  induction l generalizing j i with
  | nil => simp [patchFrom]
  | cons t rest ih =>
      cases i with
      | zero => simp [patchFrom]
      | succ n =>
          simp only [patchFrom, List.getElem?_cons_succ]
          rw [ih (j + 1) n]
          simp only [Nat.succ_add, Nat.add_succ]

/-- The loop-body preamble preserves manager reachability (it touches
the manager only through the context write-through). -/
theorem reach_iterPre (mark : Nat) (fid : Option Nat) (mr : Bool) (s : SysState)
    (ctx : Ctx) (h : HMReach s.hitl) :
    HMReach (iterPre mark fid mr s ctx).1.hitl := by
  unfold iterPre
  split
  · split
    · exact reach_setCtx mark fid _ _ h
    · exact h
  · exact h

/-- The HITL check only performs public manager operations, so it
preserves reachability of the manager state. -/
theorem reach_hitl_check (cfg : Config) (s : SysState) (out : CogOut) (ctx : Ctx)
    (h : HMReach s.hitl) : HMReach (hitl_check cfg s out ctx).1.hitl := by
  unfold hitl_check
  cases hmode : cfg.mode with
  | disabled => exact h
  | auto =>
    cases hev : evaluate cfg.policy out ctx s.loop_counter with
    | mk lvl reason =>
      dsimp only
      by_cases hl : lvl = ILevel.none
      · rw [if_pos hl]
        exact h
      · rw [if_neg hl]
        cases hfz : HM.freeze_state s.hitl s.loop_counter out s.memory.get_snapshot
            s.memory.get_evidence_snapshot ctx ⟨cfg.rules, cfg.instructions⟩ lvl
            reason with
        | mk hm1 fz =>
          have hr1 : HMReach hm1 := by
            have hst := HMReach.step _ _ h (HMStep.freeze s.hitl s.loop_counter out
              s.memory.get_snapshot s.memory.get_evidence_snapshot ctx
              ⟨cfg.rules, cfg.instructions⟩ lvl reason)
            rwa [hfz] at hst
          cases hrq : HM.request_approval hm1 fz with
          | mk hm2 req =>
            have hr2 : HMReach hm2 := by
              have hst := HMReach.step _ _ hr1 (HMStep.request hm1 fz)
              rwa [hrq] at hst
            dsimp only
            cases hpd : HM.process_human_decision hm2 req.freeze_id "approve"
                Option.none Option.none (some "Auto-approved for testing") with
            | mk hm3 result =>
              have hr3 : HMReach hm3 := by
                have hst := HMReach.step _ _ hr2 (HMStep.decide hm2 req.freeze_id
                  "approve" Option.none Option.none (some "Auto-approved for testing"))
                rwa [hpd] at hst
              cases result with
              | error msg => exact hr3
              | ok d2 tid fid2 na =>
                cases na with
                | execute pa =>
                    dsimp only
                    cases hth : HM.thaw_state hm3 fz.freeze_id with
                    | mk hm4 thawed =>
                      have hr4 : HMReach hm4 := by
                        have hst := HMReach.step _ _ hr3 (HMStep.thaw hm3 fz.freeze_id)
                        rwa [hth] at hst
                      by_cases hpa : some pa ≠ out.proposed_action
                      · rw [if_pos hpa]
                        exact hr4
                      · rw [if_neg hpa]
                        exact hr4
                | retry_cognition fb2 =>
                    dsimp only
                    cases hth : HM.thaw_state hm3 fz.freeze_id with
                    | mk hm4 thawed =>
                      have hr4 : HMReach hm4 := by
                        have hst := HMReach.step _ _ hr3 (HMStep.thaw hm3 fz.freeze_id)
                        rwa [hth] at hst
                      exact hr4
  | noHandler =>
    cases hev : evaluate cfg.policy out ctx s.loop_counter with
    | mk lvl reason =>
      dsimp only
      by_cases hl : lvl = ILevel.none
      · rw [if_pos hl]
        exact h
      · rw [if_neg hl]
        cases hfz : HM.freeze_state s.hitl s.loop_counter out s.memory.get_snapshot
            s.memory.get_evidence_snapshot ctx ⟨cfg.rules, cfg.instructions⟩ lvl
            reason with
        | mk hm1 fz =>
          have hr1 : HMReach hm1 := by
            have hst := HMReach.step _ _ h (HMStep.freeze s.hitl s.loop_counter out
              s.memory.get_snapshot s.memory.get_evidence_snapshot ctx
              ⟨cfg.rules, cfg.instructions⟩ lvl reason)
            rwa [hfz] at hst
          cases hrq : HM.request_approval hm1 fz with
          | mk hm2 req =>
            have hr2 : HMReach hm2 := by
              have hst := HMReach.step _ _ hr1 (HMStep.request hm1 fz)
              rwa [hrq] at hst
            dsimp only
            by_cases hn : lvl = ILevel.notify
            · rw [if_pos hn]
              cases hpd : HM.process_human_decision hm2 fz.freeze_id "approve"
                  Option.none Option.none (some "Auto-approved (notify level)") with
              | mk hm3 result =>
                have hr3 : HMReach hm3 := by
                  have hst := HMReach.step _ _ hr2 (HMStep.decide hm2 fz.freeze_id
                    "approve" Option.none Option.none
                    (some "Auto-approved (notify level)"))
                  rwa [hpd] at hst
                cases result with
                | error msg => exact hr3
                | ok d2 tid fid2 na =>
                  cases na with
                  | execute pa =>
                      dsimp only
                      cases hth : HM.thaw_state hm3 fz.freeze_id with
                      | mk hm4 thawed =>
                        have hr4 : HMReach hm4 := by
                          have hst := HMReach.step _ _ hr3
                            (HMStep.thaw hm3 fz.freeze_id)
                          rwa [hth] at hst
                        by_cases hpa : some pa ≠ out.proposed_action
                        · rw [if_pos hpa]
                          exact hr4
                        · rw [if_neg hpa]
                          exact hr4
                  | retry_cognition fb2 =>
                      dsimp only
                      cases hth : HM.thaw_state hm3 fz.freeze_id with
                      | mk hm4 thawed =>
                        have hr4 : HMReach hm4 := by
                          have hst := HMReach.step _ _ hr3
                            (HMStep.thaw hm3 fz.freeze_id)
                          rwa [hth] at hst
                        exact hr4
            · rw [if_neg hn]
              exact hr2

/-- The tail of the loop body preserves manager reachability. -/
theorem reach_afterCheck (cfg : Config) (mark : Nat) (fid : Option Nat)
    (co : CogOut) (ctx : Ctx) (p : SysState × HCOut) (h : HMReach p.1.hitl) :
    HMReach (afterCheck cfg mark fid co ctx p).state.hitl := by
  obtain ⟨s, hc⟩ := p
  cases hc with
  | virtualReject => exact h
  | blocked => exact h
  | proceed modified =>
      dsimp only [afterCheck]
      cases ha : action cfg s co modified with
      | mk s1 r =>
        have h1 : HMReach s1.hitl := by
          have he : s1.hitl = s.hitl := by
            have := action_hitl cfg s co modified
            rw [ha] at this
            exact this
          rw [he]
          exact h
        dsimp only
        cases hsc : setCtx mark fid s1 (alistSet ctx "last_action_result" r) with
        | mk s2 c2 =>
          have h2 : HMReach s2.hitl := by
            have h0 := reach_setCtx mark fid s1 (alistSet ctx "last_action_result" r) h1
            rw [hsc] at h0
            exact h0
          split <;> (dsimp only [IterOut.state]; exact h2)

/-- One loop iteration preserves manager reachability. -/
theorem reach_loopIter (cfg : Config) (mark : Nat) (fid : Option Nat) (mr : Bool)
    (s : SysState) (ctx : Ctx) (h : HMReach s.hitl) :
    HMReach (loopIter cfg mark fid mr s ctx).state.hitl := by
  unfold loopIter
  cases hpre : iterPre mark fid mr s ctx with
  | mk s1 ctx1 =>
    have h1 : HMReach s1.hitl := by
      have h0 := reach_iterPre mark fid mr s ctx h
      rw [hpre] at h0
      exact h0
    dsimp only
    cases hcog : cognition cfg s1 ctx1 with
    | mk s2 co =>
      have h2 : HMReach s2.hitl := by
        have he : s2.hitl = s1.hitl := by
          have h0 : (cognition cfg s1 ctx1).1.hitl = s1.hitl := rfl
          rw [hcog] at h0
          exact h0
        rw [he]
        exact h1
      dsimp only
      cases hsc : setCtx mark fid s2 (clearRejectionKeys ctx1) with
      | mk s2b ctx2 =>
        have h2b : HMReach s2b.hitl := by
          have h0 := reach_setCtx mark fid s2 (clearRejectionKeys ctx1) h2
          rw [hsc] at h0
          exact h0
        dsimp only
        cases hctl : control cfg s2b co with
        | mk s3 r =>
          have h3 : HMReach s3.hitl := by
            have he : s3.hitl = s2b.hitl := by
              have h0 := control_hitl cfg s2b co
              rw [hctl] at h0
              exact h0
            rw [he]
            exact h2b
          obtain ⟨valid, msg, co2⟩ := r
          dsimp only
          cases valid with
          | false =>
              rw [if_pos (by simp)]
              cases hs4 : setCtx mark fid s3
                  (alistSet ctx2 "last_rejection" (.str msg)) with
              | mk s4 c4 =>
                have h4 : HMReach s4.hitl := by
                  have h0 := reach_setCtx mark fid s3
                    (alistSet ctx2 "last_rejection" (.str msg)) h3
                  rw [hs4] at h0
                  exact h0
                exact h4
          | true =>
              rw [if_neg (by simp)]
              exact reach_afterCheck cfg mark fid co2 ctx2
                (hitl_check cfg s3 co2 ctx2)
                (reach_hitl_check cfg s3 co2 ctx2 h3)

/-- The while loop preserves manager reachability. -/
theorem reach_loopRun (cfg : Config) (mark : Nat) (fid : Option Nat) (mr : Bool)
    (fuel : Nat) (s : SysState) (ctx : Ctx) (h : HMReach s.hitl) :
    HMReach (loopRun cfg mark fid mr fuel s ctx).hitl := by
  induction fuel generalizing s ctx with
  | zero => exact h
  | succ n ih =>
      unfold loopRun
      by_cases hc : s.loop_counter < cfg.max_loops
      · rw [if_pos hc]
        have hri := reach_loopIter cfg mark fid mr s ctx h
        cases hit : loopIter cfg mark fid mr s ctx with
        | cont s1 c1 =>
            rw [hit] at hri
            exact ih s1 c1 hri
        | halt s1 =>
            rw [hit] at hri
            exact hri
      · rw [if_neg hc]
        exact h

/-- A full run only touches the manager through public operations. -/
theorem reach_runFull (cfg : Config) (task : String) :
    HMReach (runFull cfg task).1.hitl := by
  unfold runFull
  cases hr : retrieval SysState.init task with
  | mk s plan =>
      dsimp only
      apply reach_loopRun
      have he : (retrieval SysState.init task).1.hitl = SysState.init.hitl := rfl
      rw [hr] at he
      rw [he]
      exact HMReach.init

/-- The continue-execution loop preserves manager reachability. -/
theorem reach_continueExecution (cfg : Config) (mark : Nat) (fid : Option Nat)
    (s : SysState) (ctx : Ctx) (h : HMReach s.hitl) :
    HMReach (continueExecution cfg mark fid s ctx).1.hitl := by
  unfold continueExecution
  exact reach_loopRun cfg mark fid false cfg.max_loops s ctx h

/-- The resume reject branch preserves manager reachability. -/
theorem reach_resumeRetry (cfg : Config) (mark : Nat) (fid : Option Nat)
    (s : SysState) (ctx : Ctx) (h : HMReach s.hitl) :
    HMReach (resumeRetry cfg mark fid s ctx).1.hitl := by
  unfold resumeRetry
  cases hce : continueExecution cfg mark fid s ctx with
  | mk s2 rep =>
    have he : s2.hitl = (continueExecution cfg mark fid s ctx).1.hitl := by rw [hce]
    dsimp only
    show HMReach s2.hitl
    rw [he]
    exact reach_continueExecution cfg mark fid s ctx h

/-- The resume execute branch preserves manager reachability. -/
theorem reach_resumeExec (cfg : Config) (mark : Nat) (fid : Option Nat)
    (s : SysState) (frozen : HM.Frozen) (pa : ProposedAction) (ctx : Ctx)
    (h : HMReach s.hitl) :
    HMReach (resumeExec cfg mark fid s frozen pa ctx).1.hitl := by
  unfold resumeExec
  cases hac : action cfg s frozen.cognition_output (some pa) with
  | mk s1 ares =>
    have h1 : HMReach s1.hitl := by
      have he : s1.hitl = s.hitl := by
        have h0 := action_hitl cfg s frozen.cognition_output (some pa)
        rw [hac] at h0
        exact h0
      rw [he]
      exact h
    dsimp only
    cases hsc : setCtx mark fid s1 (alistSet ctx "last_action_result" ares) with
    | mk s1b ctx2 =>
      have h1b : HMReach s1b.hitl := by
        have h0 := reach_setCtx mark fid s1 (alistSet ctx "last_action_result" ares) h1
        rw [hsc] at h0
        exact h0
      dsimp only
      by_cases hfin : ¬ frozen.cognition_output.is_final_action
      · rw [if_pos hfin]
        cases hce : continueExecution cfg mark fid { s1b with is_resumed := true }
            ctx2 with
        | mk s2 rep =>
          have he : s2.hitl = (continueExecution cfg mark fid
              { s1b with is_resumed := true } ctx2).1.hitl := by
            rw [hce]
          dsimp only
          show HMReach s2.hitl
          rw [he]
          exact reach_continueExecution cfg mark fid _ _ h1b
      · rw [if_neg hfin]
        exact h1b

/-- Resumption only touches the manager through public operations. -/
theorem reach_resume (cfg : Config) (s : SysState) (fid : Nat) (d : String)
    (fb : Option String) (ma : Option ProposedAction) (ra : Option String)
    (h : HMReach s.hitl) :
    HMReach (resume_from_freeze cfg s fid d fb ma ra).1.hitl := by
  unfold resume_from_freeze
  cases hpd : HM.process_human_decision s.hitl fid d fb ma ra with
  | mk hm1 result =>
    have hr1 : HMReach hm1 := by
      have hst := HMReach.step _ _ h (HMStep.decide s.hitl fid d fb ma ra)
      rwa [hpd] at hst
    cases result with
    | error msg => exact hr1
    | ok d2 tid fid2 na =>
      dsimp only
      cases hg : hm1.getFrozen fid with
      | none => exact hr1
      | some frozen =>
        dsimp only
        cases hth : HM.thaw_state hm1 fid with
        | mk hm2 thawed =>
          have hr2 : HMReach hm2 := by
            have hst := HMReach.step _ _ hr1 (HMStep.thaw hm1 fid)
            rwa [hth] at hst
          cases na with
          | execute pa =>
              dsimp only
              apply reach_resumeExec
              exact hr2
          | retry_cognition fb2 =>
              dsimp only
              exact reach_resumeRetry cfg _ _ _ _ (reach_setCtx _ _ _ _ hr2)

/-- C8: in every run (and across arbitrary sequences of manager
operations), every frozen snapshot created appears in the audit log with
exactly one `state_frozen` event bearing its identifier, and that event
precedes every `state_thawed` event referencing the same identifier;
`run` and `resume_from_freeze` only produce reachable manager states. -/
theorem C8_frozen_exactly_once_before_thaw :
    (∀ m : HM.MState, HMReach m →
      (∀ k, 1 ≤ k → k ≤ m.freeze_counter → countFrozen m k = 1) ∧
      (∀ (i k : Nat) (t : HM.HITLTrace), m.hitl_traces[i]? = some t →
        isThawedB k t = true →
        ∃ (j : Nat) (u : HM.HITLTrace), j < i ∧ m.hitl_traces[j]? = some u ∧
          isFrozenB k u = true)) ∧
    (∀ cfg task, HMReach (runFull cfg task).1.hitl) ∧
    (∀ cfg s fid d fb ma ra, HMReach s.hitl →
      HMReach (resume_from_freeze cfg s fid d fb ma ra).1.hitl) :=
  ⟨fun m hm => ⟨(hminv_reach m hm).created_once, (hminv_reach m hm).thawed_after_frozen⟩,
   reach_runFull,
   fun cfg s fid d fb ma ra h => reach_resume cfg s fid d fb ma ra h⟩

/-- Witness for C8: after a concrete freeze followed by a thaw, the log
holds exactly one frozen event for id 1. -/
theorem C8_frozen_exactly_once_before_thaw_witness :
    countFrozen (HM.thaw_state (HM.freeze_state HM.init 3 demoCog demoMem []
      demoCtx demoMP .approve "r").1 1).1 1 = 1 :=
  ((C8_frozen_exactly_once_before_thaw.1 _
    (HMReach.step _ _
      (HMReach.step _ _ HMReach.init
        (HMStep.freeze HM.init 3 demoCog demoMem [] demoCtx demoMP .approve "r"))
      (HMStep.thaw _ 1))).1) 1 (by decide) (by decide)

/-- C10: every approved/rejected/modified audit event appended by
`process_human_decision` carries actor tag `"human"`, even when the
decision was produced automatically (the auto-approve handler or the
handler-less notify auto-approval both go through
`process_human_decision`), so the audit log never records a decision as
system-originated — in any reachable manager state and in any run. -/
theorem C10_decision_actor_human :
    (∀ m : HM.MState, HMReach m → ∀ t ∈ m.hitl_traces, isDecisionB t = true →
      t.actor = "human") ∧
    (∀ cfg task, ∀ t ∈ (run cfg task).hitl_events, isDecisionB t = true →
      t.actor = "human") := by
  constructor
  · intro m hm
    exact (hminv_reach m hm).decisions_human
  · intro cfg task t ht hd
    have hr := reach_runFull cfg task
    have hev : (run cfg task).hitl_events = (runFull cfg task).1.hitl.hitl_traces := by
      show (runFull cfg task).2.hitl_events = (runFull cfg task).1.hitl.hitl_traces
      unfold runFull
      cases retrieval SysState.init task with
      | mk s plan => rfl
    rw [hev] at ht
    exact (hminv_reach _ hr).decisions_human t ht hd

/-- Witness for C10: the concrete approved event of `demoDecidedM` has
actor human. -/
theorem C10_decision_actor_human_witness : demoDecTrace.actor = "human" :=
  C10_decision_actor_human.1 demoDecidedM
    (HMReach.step _ _
      (HMReach.step _ _ HMReach.init
        (HMStep.freeze HM.init 3 demoCog demoMem [] demoCtx demoMP .approve "r"))
      (HMStep.decide _ 1 "approve" Option.none Option.none Option.none))
    demoDecTrace (by decide) (by decide)

/-- C6: the Control module sets the control-validated flag on final
actions before governance-rule evaluation, so the
no-final-without-validation rule sees the flag and a final action with
cited evidence passes with `PASS`; independently, an evidence-cache hit
for the key derived from (tool name, parameters) is a hard rejection
with the duplicate-call message, overriding any governance pass. -/
theorem C6_control_flag_and_duplicate (cfg : Config) (s : SysState) (out : CogOut) :
    (fun pa hit =>
      (out.is_final_action = true →
        ((control cfg s out).2.2.2).control_validated = true)
      ∧ (pa.tool_name ≠ "" → hit = true →
          (control cfg s out).2.1 = false ∧
          (control cfg s out).2.2.1 = redundantMsg)
      ∧ (¬ (pa.tool_name ≠ "" ∧ hit = true) → out.is_final_action = true →
          (cfg.rules.must_cite_stored_evidence = true → out.evidence_refs ≠ []) →
          (control cfg s out).2.1 = true ∧ (control cfg s out).2.2.1 = "PASS"))
    (out.proposed_action.getD ProposedAction.empty)
    (s.memory.has_evidence
      (evidenceKey (out.proposed_action.getD ProposedAction.empty).tool_name
        (out.proposed_action.getD ProposedAction.empty).parameters)) := by
  have hpa : (if out.is_final_action = true
      then { out with control_validated := true } else out).proposed_action
      = out.proposed_action := by
    split <;> rfl
  refine ⟨?_, ?_, ?_⟩
  · intro hfin
    simp only [control, hfin, if_pos]
  · intro htn hhit
    have hhit2 : alistHas s.memory.evidence_cache
        (evidenceKey (out.proposed_action.getD ProposedAction.empty).tool_name
          (out.proposed_action.getD ProposedAction.empty).parameters) = true := hhit
    by_cases hfin2 : out.is_final_action = true <;>
      exact ⟨by simp [control, hfin2, htn, Memory.has_evidence, hhit2],
             by simp [control, hfin2, htn, Memory.has_evidence, hhit2]⟩
  · intro hmiss hfin hcite
    have hdup : ¬ ((out.proposed_action.getD ProposedAction.empty).tool_name ≠ "" ∧
        alistHas s.memory.evidence_cache
          (evidenceKey (out.proposed_action.getD ProposedAction.empty).tool_name
            (out.proposed_action.getD ProposedAction.empty).parameters) = true) :=
      fun hc => hmiss ⟨hc.1, hc.2⟩
    have hvalid : metaValidate cfg.rules
        { out with is_final_action := true, control_validated := true }
        = (true, "PASS") := by
      by_cases hmc : cfg.rules.must_cite_stored_evidence = true
      · have hrefs := hcite hmc
        simp [metaValidate, hmc, hrefs]
      · simp [metaValidate, hmc]
    exact ⟨by simp [control, hfin, Memory.has_evidence, hdup, hvalid],
           by simp [control, hfin, Memory.has_evidence, hdup, hvalid]⟩

/-- Witness for C6, at the concrete demo configuration: the final-action
flag is set, the final action passes validation with fresh evidence, and
the duplicate tool call is hard-rejected when the key is cached. -/
theorem C6_control_flag_and_duplicate_witness :
    ((control demoCfg SysState.init demoCog).2.2.2.control_validated = true) ∧
    ((control demoCfg SysState.init demoCog).2.1 = true ∧
      (control demoCfg SysState.init demoCog).2.2.1 = "PASS") ∧
    ((control demoCfg demoDupState demoCog).2.1 = false ∧
      (control demoCfg demoDupState demoCog).2.2.1 = redundantMsg) :=
  ⟨(C6_control_flag_and_duplicate demoCfg SysState.init demoCog).1 (by decide),
   (C6_control_flag_and_duplicate demoCfg SysState.init demoCog).2.2
     (by decide) (by decide) (by decide),
   (C6_control_flag_and_duplicate demoCfg demoDupState demoCog).2.1
     (by decide) (by decide)⟩

/-- Cognition increments the loop counter by exactly one. -/
theorem cognition_counter (cfg : Config) (s : SysState) (ctx : Ctx) :
    (cognition cfg s ctx).1.loop_counter = s.loop_counter + 1 := rfl

/-- Control leaves the loop counter unchanged. -/
theorem control_counter (cfg : Config) (s : SysState) (out : CogOut) :
    (control cfg s out).1.loop_counter = s.loop_counter := by
  simp only [control]
  split <;> rfl

/-- Control does not change the final-action flag of the output. -/
theorem control_final (cfg : Config) (s : SysState) (out : CogOut) :
    (control cfg s out).2.2.2.is_final_action = out.is_final_action := by
  simp only [control]
  split <;> rfl

/-- The Action module leaves the loop counter unchanged. -/
theorem action_counter (cfg : Config) (s : SysState) (out : CogOut)
    (mod : Option ProposedAction) :
    (action cfg s out mod).1.loop_counter = s.loop_counter := by
  simp only [action]
  split
  · rfl
  · split <;> rfl

/-- The loop-body preamble leaves the loop counter unchanged. -/
theorem iterPre_counter (mark : Nat) (fid : Option Nat) (mr : Bool) (s : SysState)
    (ctx : Ctx) : (iterPre mark fid mr s ctx).1.loop_counter = s.loop_counter := by
  unfold iterPre
  split
  · split <;> rfl
  · rfl

/-- The HITL check leaves the loop counter unchanged. -/
theorem hitl_check_counter (cfg : Config) (s : SysState) (out : CogOut)
    (ctx : Ctx) : (hitl_check cfg s out ctx).1.loop_counter = s.loop_counter := by
  unfold hitl_check
  repeat' (first | split | dsimp only)

/-- With HITL disabled the check is a no-op pass. -/
theorem hitl_check_disabled (cfg : Config) (s : SysState) (out : CogOut)
    (ctx : Ctx) (h : cfg.mode = .disabled) :
    hitl_check cfg s out ctx = (s, .proceed Option.none) := by
  unfold hitl_check
  rw [h]

/-- The tail of the loop body leaves the loop counter unchanged. -/
theorem afterCheck_counter (cfg : Config) (mark : Nat) (fid : Option Nat)
    (co : CogOut) (ctx : Ctx) (p : SysState × HCOut) :
    (afterCheck cfg mark fid co ctx p).state.loop_counter = p.1.loop_counter := by
  obtain ⟨s, hc⟩ := p
  cases hc with
  | virtualReject => rfl
  | blocked => rfl
  | proceed modified =>
      dsimp only [afterCheck]
      cases ha : action cfg s co modified with
      | mk s1 r =>
        have he : s1.loop_counter = s.loop_counter := by
          have h0 := action_counter cfg s co modified
          rw [ha] at h0
          exact h0
        dsimp only
        cases hsc : setCtx mark fid s1 (alistSet ctx "last_action_result" r) with
        | mk s2 c2 =>
          have he2 : s2.loop_counter = s1.loop_counter := by
            have h0 := (setCtx_state mark fid s1 (alistSet ctx "last_action_result" r)).1
            rw [hsc] at h0
            exact h0
          split <;> (dsimp only [IterOut.state]; rw [he2]; exact he)

/-- Each iteration of the while body increments the loop counter by
exactly one (cognition runs unconditionally at the top of the body). -/
theorem loopIter_counter (cfg : Config) (mark : Nat) (fid : Option Nat)
    (mr : Bool) (s : SysState) (ctx : Ctx) :
    (loopIter cfg mark fid mr s ctx).state.loop_counter = s.loop_counter + 1 := by
  unfold loopIter
  cases hpre : iterPre mark fid mr s ctx with
  | mk s1 ctx1 =>
    have h1 : s1.loop_counter = s.loop_counter := by
      have h0 := iterPre_counter mark fid mr s ctx
      rw [hpre] at h0
      exact h0
    dsimp only
    cases hcog : cognition cfg s1 ctx1 with
    | mk s2 co =>
      have h2 : s2.loop_counter = s1.loop_counter + 1 := by
        have h0 := cognition_counter cfg s1 ctx1
        rw [hcog] at h0
        exact h0
      dsimp only
      cases hsc : setCtx mark fid s2 (clearRejectionKeys ctx1) with
      | mk s2b ctx2 =>
        have h2b : s2b.loop_counter = s2.loop_counter := by
          have h0 := (setCtx_state mark fid s2 (clearRejectionKeys ctx1)).1
          rw [hsc] at h0
          exact h0
        dsimp only
        cases hctl : control cfg s2b co with
        | mk s3 r =>
          have h3 : s3.loop_counter = s2b.loop_counter := by
            have h0 := control_counter cfg s2b co
            rw [hctl] at h0
            exact h0
          obtain ⟨valid, msg, co2⟩ := r
          dsimp only
          cases valid with
          | false =>
              rw [if_pos (by simp)]
              show (setCtx mark fid s3
                (alistSet ctx2 "last_rejection" (.str msg))).1.loop_counter
                  = s.loop_counter + 1
              have h4 := (setCtx_state mark fid s3
                (alistSet ctx2 "last_rejection" (.str msg))).1
              omega
          | true =>
              rw [if_neg (by simp)]
              have h4 := afterCheck_counter cfg mark fid co2 ctx2
                (hitl_check cfg s3 co2 ctx2)
              have h5 := hitl_check_counter cfg s3 co2 ctx2
              omega

/-- The loop counter never decreases across the while loop. -/
theorem loopRun_counter_mono (cfg : Config) (mark : Nat) (fid : Option Nat)
    (mr : Bool) (fuel : Nat) (s : SysState) (ctx : Ctx) :
    s.loop_counter ≤ (loopRun cfg mark fid mr fuel s ctx).loop_counter := by
  induction fuel generalizing s ctx with
  | zero => exact le_refl _
  | succ n ih =>
      unfold loopRun
      by_cases hc : s.loop_counter < cfg.max_loops
      · rw [if_pos hc]
        have hct := loopIter_counter cfg mark fid mr s ctx
        cases hit : loopIter cfg mark fid mr s ctx with
        | cont s1 c1 =>
            rw [hit] at hct
            have := ih s1 c1
            dsimp only [IterOut.state] at hct
            dsimp only
            omega
        | halt s1 =>
            rw [hit] at hct
            dsimp only [IterOut.state] at hct
            dsimp only
            omega
      · rw [if_neg hc]

/-- With HITL disabled and an engine that never proposes a final action,
every iteration continues the loop. -/
theorem loopIter_nonfinal_continues (cfg : Config) (mark : Nat)
    (fid : Option Nat) (mr : Bool) (s : SysState) (ctx : Ctx)
    (hmode : cfg.mode = .disabled)
    (hnf : ∀ env, (cfg.engine env).is_final_action = false) :
    (loopIter cfg mark fid mr s ctx).isHalt = false := by
  unfold loopIter
  cases hpre : iterPre mark fid mr s ctx with
  | mk s1 ctx1 =>
    dsimp only
    cases hcog : cognition cfg s1 ctx1 with
    | mk s2 co =>
      have hco : co.is_final_action = false := by
        have h0 : (cognition cfg s1 ctx1).2 = cfg.engine
            ⟨s1.memory.get_state_summary, ctx1, s1.loop_counter + 1⟩ := rfl
        rw [hcog] at h0
        have h0b : co = cfg.engine
            ⟨s1.memory.get_state_summary, ctx1, s1.loop_counter + 1⟩ := h0
        rw [h0b]
        exact hnf _
      dsimp only
      cases hsc : setCtx mark fid s2 (clearRejectionKeys ctx1) with
      | mk s2b ctx2 =>
        dsimp only
        cases hctl : control cfg s2b co with
        | mk s3 r =>
          have hfin : r.2.2.is_final_action = false := by
            have h0 := control_final cfg s2b co
            rw [hctl] at h0
            have h0b : r.2.2.is_final_action = co.is_final_action := h0
            rw [h0b]
            exact hco
          obtain ⟨valid, msg, co2⟩ := r
          dsimp only at hfin
          dsimp only
          cases valid with
          | false => rfl
          | true =>
              rw [if_neg (by simp)]
              rw [hitl_check_disabled cfg s3 co2 ctx2 hmode]
              dsimp only [afterCheck]
              cases ha : action cfg s3 co2 Option.none with
              | mk s4 ar =>
                  dsimp only
                  cases hs2 : setCtx mark fid s4
                      (alistSet ctx2 "last_action_result" ar) with
                  | mk s5 c5 =>
                      rw [hfin]
                      rfl

/-- With HITL disabled and no final action ever proposed, a run with
sufficient fuel drives the loop counter exactly to the ceiling. -/
theorem loopRun_exhausts (cfg : Config) (mark : Nat) (fid : Option Nat)
    (mr : Bool) (hmode : cfg.mode = .disabled)
    (hnf : ∀ env, (cfg.engine env).is_final_action = false) :
    ∀ (fuel : Nat) (s : SysState) (ctx : Ctx),
      s.loop_counter ≤ cfg.max_loops → cfg.max_loops ≤ s.loop_counter + fuel →
      (loopRun cfg mark fid mr fuel s ctx).loop_counter = cfg.max_loops := by
  intro fuel
  induction fuel with
  | zero =>
      intro s ctx h1 h2
      unfold loopRun
      omega
  | succ n ih =>
      intro s ctx h1 h2
      unfold loopRun
      by_cases hc : s.loop_counter < cfg.max_loops
      · rw [if_pos hc]
        have hih := loopIter_nonfinal_continues cfg mark fid mr s ctx hmode hnf
        have hct := loopIter_counter cfg mark fid mr s ctx
        cases hit : loopIter cfg mark fid mr s ctx with
        | cont s1 c1 =>
            rw [hit] at hct
            dsimp only [IterOut.state] at hct
            exact ih s1 c1 (by omega) (by omega)
        | halt s1 =>
            rw [hit] at hih
            simp [IterOut.isHalt] at hih
      · rw [if_neg hc]
        omega

/-- C3 counterexample: a loop-exhausted run (one loop, never final, the
iteration continues and the counter reaches the ceiling) and a cleanly
completed run (final action executed, iteration halts) produce the very
same report summary — the summary carries no loop-exhausted marker. -/
theorem C3_no_exhaustion_marker :
    (run cfgExhaust "t").summary = (run cfgComplete "t").summary ∧
    (runFull cfgExhaust "t").1.loop_counter = cfgExhaust.max_loops ∧
    (loopIter cfgExhaust 1 Option.none true (retrieval SysState.init "t").1
        (initialContext "t")).isHalt = false ∧
    (loopIter cfgComplete 1 Option.none true (retrieval SysState.init "t").1
        (initialContext "t")).isHalt = true := by decide

/-- C3 (amended): the summary records the exact loop count reached
(`total_loops` equals the final loop counter), and a run that exhausts
the loop ceiling reports `total_loops = max_loops`; however, the summary
carries no dedicated marker distinguishing exhaustion from a clean
completion or a standing suspension at the same loop count. -/
theorem C3_amended_total_loops (cfg : Config) (task : String)
    (hmode : cfg.mode = .disabled)
    (hnf : ∀ env, (cfg.engine env).is_final_action = false) :
    (run cfg task).summary.total_loops = (runFull cfg task).1.loop_counter ∧
    (run cfg task).summary.total_loops = cfg.max_loops := by
  have hrec : (run cfg task).summary.total_loops
      = (runFull cfg task).1.loop_counter := by
    show (runFull cfg task).2.summary.total_loops
      = (runFull cfg task).1.loop_counter
    unfold runFull
    cases retrieval SysState.init task with
    | mk s plan => rfl
  refine ⟨hrec, ?_⟩
  rw [hrec]
  unfold runFull
  cases hr : retrieval SysState.init task with
  | mk s0 plan =>
    dsimp only
    have h0 : s0.loop_counter = 0 := by
      have hh : (retrieval SysState.init task).1.loop_counter = 0 := rfl
      rw [hr] at hh
      exact hh
    apply loopRun_exhausts cfg s0.memory.history.length Option.none true hmode hnf
      cfg.max_loops s0
    · omega
    · omega

/-- Witness for C3 (amended), at the concrete exhausting run. -/
theorem C3_amended_total_loops_witness :
    (run cfgExhaust "t").summary.total_loops
        = (runFull cfgExhaust "t").1.loop_counter ∧
    (run cfgExhaust "t").summary.total_loops = cfgExhaust.max_loops :=
  C3_amended_total_loops cfgExhaust "t" rfl (fun _ => rfl)

/-- C9 counterexample: a failing final action does not leave the loop
continuing.  In the concrete run whose final action's tool raises, the
action step returns the failed-result dictionary and the loop body
halts; the run completes at loop 1 with a ceiling of 5, and the
returned report surfaces the failure (through the live context held by
reference in the cognition trace) — so the failure is recorded and
surfaced, but the claim's "the loop continues … including when the
failing action was marked final" is refuted: on a final action the
loop terminates. -/
theorem C9_final_failure_halts :
    (action cfgBoom SysState.init (engineBoom ⟨⟨[], [], 0⟩, [], 1⟩) Option.none).2
        = errResult "boom" ∧
    (loopIter cfgBoom 1 Option.none true (retrieval SysState.init "t").1
        (initialContext "t")).isHalt = true ∧
    (runFull cfgBoom "t").1.loop_counter = 1 ∧
    (1 < cfgBoom.max_loops) ∧
    reportMentions "Action execution failed: boom" (run cfgBoom "t") = true := by
  decide

/-- C9 (amended): a capability failure is returned as a failed-result
dictionary rather than an exception — the action step returns the error
value with no state change; the failed result is written into the live
context dict, which every Cognition entry of the current run holds by
reference, so the run's returned report surfaces the failure in its log
(concretely, the failing-final-action run's report mentions the failure
message); a failing non-final action leaves the loop continuing with
the failed result injected into the next reasoning context; a failing
final action halts the loop ("the loop continues" does not hold for
final actions); and on the resume path the failure of an approved final
action is surfaced through the stored snapshot — the resumed context is
the snapshot's own dict, still serialized in the report's frozen-states
block (concretely, the blocked-then-resumed failing `send_email` run's
returned report mentions the failure message). -/
theorem C9_amended_failure_handling (cfg : Config) (s : SysState) (out : CogOut)
    (mod : Option ProposedAction) (pa : ProposedAction) (e : String) (ctx : Ctx)
    (mark : Nat) (fid : Option Nat) :
    (mod.getD (out.proposed_action.getD ProposedAction.empty) = pa →
      pa.tool_name ≠ "" →
      toolsExecute cfg.tools pa.tool_name pa.parameters = .error e →
      action cfg s out mod = (s, errResult e))
    ∧ (action cfg s out mod = (s, errResult e) → out.is_final_action = false →
        afterCheck cfg mark fid out ctx (s, .proceed mod)
          = .cont
              (setCtx mark fid s (alistSet ctx "last_action_result" (errResult e))).1
              (alistSet ctx "last_action_result" (errResult e)))
    ∧ (action cfg s out mod = (s, errResult e) → out.is_final_action = true →
        afterCheck cfg mark fid out ctx (s, .proceed mod)
          = .halt
              (setCtx mark fid s (alistSet ctx "last_action_result" (errResult e))).1)
    ∧ (∀ (i : Nat) (t : LoopTrace), mark ≤ i → t.module = "Cognition" →
        s.memory.history[i]? = some t →
        (setCtx mark fid s
            (alistSet ctx "last_action_result" (errResult e))).1.memory.history[i]?
          = some { t with
              input_state := ctxJ (alistSet ctx "last_action_result" (errResult e)) })
    ∧ reportMentions "Action execution failed: boom" (run cfgBoom "t") = true
    ∧ (resume_from_freeze cfgResumeBoom (runFull cfgResumeBoom "t").1 1 "approve"
        Option.none Option.none Option.none).2.isErr = false
    ∧ (resume_from_freeze cfgResumeBoom (runFull cfgResumeBoom "t").1 1 "approve"
        Option.none Option.none Option.none).2.mentions
          "Action execution failed: smtp down" = true := by
  refine ⟨?_, ?_, ?_, ?_, by decide, by decide, by decide⟩
  · intro hres htn htool
    simp only [action]
    rw [hres, if_neg htn, htool]
  · intro hact hfin
    dsimp only [afterCheck]
    rw [hact]
    dsimp only
    rw [hfin]
    rfl
  · intro hact hfin
    dsimp only [afterCheck]
    rw [hact]
    dsimp only
    rw [hfin]
    rfl
  · intro i t hmi hmod hht
    show (patchFrom mark (alistSet ctx "last_action_result" (errResult e))
        0 s.memory.history)[i]? = _
    rw [patchFrom_getElem, hht]
    dsimp only [Option.map]
    rw [if_pos ⟨by omega, hmod⟩]

/-- A decision with value approve on a present snapshot logs the
approved event and routes to executing the pending action. -/
theorem process_approve (m : HM.MState) (fid : Nat) (frozen : HM.Frozen)
    (fb : Option String) (ma : Option ProposedAction) (ra : Option String)
    (hg : m.getFrozen fid = some frozen) :
    HM.process_human_decision m fid "approve" fb ma ra
      = ({ m with
            hitl_traces := m.hitl_traces ++
              [⟨m.trace_counter + 1, "", .approved, some fid,
                frozen.pending_action, some "approve", fb, ma, ra, "human"⟩],
            trace_counter := m.trace_counter + 1 },
         .ok "approve" (m.trace_counter + 1) fid
            (.execute frozen.pending_action)) := by
  unfold HM.process_human_decision
  rw [hg]
  dsimp only
  rw [if_pos rfl]
  unfold HM.logTrace HM.determine_next_action
  rw [if_pos rfl]

/-- An approve-resumption of a final action reports the loop counter of
the state entering `resumeExec` (the action and the context
write-through leave the counter unchanged). -/
theorem resumeExec_final_totalLoops (cfg : Config) (mark : Nat)
    (fid : Option Nat) (s : SysState) (frozen : HM.Frozen) (pa : ProposedAction)
    (ctx : Ctx) (hfin : frozen.cognition_output.is_final_action = true) :
    (resumeExec cfg mark fid s frozen pa ctx).2.totalLoops
      = some s.loop_counter := by
  unfold resumeExec
  cases hac : action cfg s frozen.cognition_output (some pa) with
  | mk s4 ar =>
    have hctr : s4.loop_counter = s.loop_counter := by
      have h0 := action_counter cfg s frozen.cognition_output (some pa)
      rw [hac] at h0
      exact h0
    dsimp only
    cases hsc : setCtx mark fid s4 (alistSet ctx "last_action_result" ar) with
    | mk s5 c5 =>
      have h5 : s5.loop_counter = s4.loop_counter := by
        have h0 := (setCtx_state mark fid s4 (alistSet ctx "last_action_result" ar)).1
        rw [hsc] at h0
        exact h0
      rw [if_neg (by simp [hfin])]
      dsimp only [RunOutcome.totalLoops, genReport]
      rw [h5, hctr]

/-- C5: resumption restores the working store, evidence cache and loop
counter verbatim from the snapshot before execution continues: the
outcome of `resume_from_freeze` is independent of the live store,
evidence cache and loop counter at call time (only the manager state,
execution history and resume flags matter), the loop counter is
monotonically non-decreasing across the while loop, and an
approve-resumption of a final action reports exactly the snapshot's
loop counter as `total_loops` (never re-derived). -/
theorem C5_resume_restores_verbatim (cfg : Config) :
    (∀ s₁ s₂ : SysState, ∀ (fid : Nat) (d : String) (fb : Option String)
        (ma : Option ProposedAction) (ra : Option String),
      s₁.hitl = s₂.hitl → s₁.memory.history = s₂.memory.history →
      s₁.resume_context = s₂.resume_context → s₁.is_resumed = s₂.is_resumed →
      (resume_from_freeze cfg s₁ fid d fb ma ra).2
          = (resume_from_freeze cfg s₂ fid d fb ma ra).2 ∧
        ((resume_from_freeze cfg s₁ fid d fb ma ra).2.isErr = false →
          (resume_from_freeze cfg s₁ fid d fb ma ra).1
            = (resume_from_freeze cfg s₂ fid d fb ma ra).1))
    ∧ (∀ (mark : Nat) (fid : Option Nat) (mr : Bool) (fuel : Nat) (s : SysState)
        (ctx : Ctx),
        s.loop_counter ≤ (loopRun cfg mark fid mr fuel s ctx).loop_counter)
    ∧ (∀ (s : SysState) (fid : Nat) (frozen : HM.Frozen) (fb : Option String)
        (ma : Option ProposedAction) (ra : Option String),
        s.hitl.getFrozen fid = some frozen →
        frozen.cognition_output.is_final_action = true →
        (resume_from_freeze cfg s fid "approve" fb ma ra).2.totalLoops
          = some frozen.loop_counter) := by
  refine ⟨?_, ?_, ?_⟩
  · intro s₁ s₂ fid d fb ma ra hh hhist hrc hir
    obtain ⟨⟨st₁, hist₁, ev₁⟩, lc₁, hm₁, rc₁, ir₁⟩ := s₁
    obtain ⟨⟨st₂, hist₂, ev₂⟩, lc₂, hm₂, rc₂, ir₂⟩ := s₂
    simp only at hh hhist hrc hir
    subst hh
    subst hhist
    subst hrc
    subst hir
    unfold resume_from_freeze
    dsimp only
    cases hpd : HM.process_human_decision hm₁ fid d fb ma ra with
    | mk hm3 result =>
      cases result with
      | error msg =>
          refine ⟨rfl, ?_⟩
          intro hne
          simp [RunOutcome.isErr] at hne
      | ok d2 tid fid2 na =>
          dsimp only
          cases hg : hm3.getFrozen fid with
          | none =>
              refine ⟨rfl, ?_⟩
              intro hne
              simp [RunOutcome.isErr] at hne
          | some frozen =>
              dsimp only [Memory.restore_snapshot, Memory.restore_evidence]
              exact ⟨rfl, fun _ => rfl⟩
  · intro mark fid mr fuel s ctx
    exact loopRun_counter_mono cfg mark fid mr fuel s ctx
  · intro s fid frozen fb ma ra hg hfin
    unfold resume_from_freeze
    rw [process_approve s.hitl fid frozen fb ma ra hg]
    dsimp only
    have hg2 : ({ s.hitl with
        hitl_traces := s.hitl.hitl_traces ++
          [⟨s.hitl.trace_counter + 1, "", .approved, some fid,
            frozen.pending_action, some "approve", fb, ma, ra, "human"⟩],
        trace_counter := s.hitl.trace_counter + 1 } : HM.MState).getFrozen fid
        = some frozen := hg
    rw [hg2]
    dsimp only
    exact resumeExec_final_totalLoops cfg _ _ _ frozen _ _ hfin

/-- Witness for C5, at concrete states differing in store, evidence and
counter, resuming a final approve. -/
theorem C5_resume_restores_verbatim_witness :
    ((resume_from_freeze demoCfg
        ⟨⟨[("x", ⟨.num 9, "", Option.none⟩)], [], [("k", .null)]⟩, 7,
          (HM.freeze_state HM.init 3 demoCog demoMem [] demoCtx demoMP .approve
            "r").1, Option.none, false⟩
        1 "approve" Option.none Option.none Option.none).2
      = (resume_from_freeze demoCfg
          ⟨Memory.init, 0,
            (HM.freeze_state HM.init 3 demoCog demoMem [] demoCtx demoMP .approve
              "r").1, Option.none, false⟩
          1 "approve" Option.none Option.none Option.none).2) ∧
    ((resume_from_freeze demoCfg
        ⟨Memory.init, 0,
          (HM.freeze_state HM.init 3 demoCog demoMem [] demoCtx demoMP .approve
            "r").1, Option.none, false⟩
        1 "approve" Option.none Option.none Option.none).2.totalLoops = some 3) :=
  ⟨((C5_resume_restores_verbatim demoCfg).1
      ⟨⟨[("x", ⟨.num 9, "", Option.none⟩)], [], [("k", .null)]⟩, 7,
        (HM.freeze_state HM.init 3 demoCog demoMem [] demoCtx demoMP .approve
          "r").1, Option.none, false⟩
      ⟨Memory.init, 0,
        (HM.freeze_state HM.init 3 demoCog demoMem [] demoCtx demoMP .approve
          "r").1, Option.none, false⟩
      1 "approve" Option.none Option.none Option.none rfl rfl rfl rfl).1,
   (C5_resume_restores_verbatim demoCfg).2.2
      ⟨Memory.init, 0,
        (HM.freeze_state HM.init 3 demoCog demoMem [] demoCtx demoMP .approve
          "r").1, Option.none, false⟩
      1 (HM.freeze_state HM.init 3 demoCog demoMem [] demoCtx demoMP .approve
          "r").2 Option.none Option.none Option.none (by decide) (by decide)⟩

/-- Witness for C9 (amended), at the concrete failing tool: the error
dictionary is returned, the final failing action halts the loop with
the failure written through to the live context, and the concrete run
report does mention the failure. -/
theorem C9_amended_failure_handling_witness :
    (action cfgBoom SysState.init (engineBoom ⟨⟨[], [], 0⟩, [], 1⟩) Option.none
        = (SysState.init, errResult "boom")) ∧
    (afterCheck cfgBoom 0 Option.none (engineBoom ⟨⟨[], [], 0⟩, [], 1⟩) []
        (SysState.init, .proceed Option.none)
      = .halt (setCtx 0 Option.none SysState.init
          (alistSet [] "last_action_result" (errResult "boom"))).1) ∧
    reportMentions "Action execution failed: boom" (run cfgBoom "t") = true ∧
    (resume_from_freeze cfgResumeBoom (runFull cfgResumeBoom "t").1 1 "approve"
        Option.none Option.none Option.none).2.mentions
          "Action execution failed: smtp down" = true :=
  ⟨(C9_amended_failure_handling cfgBoom SysState.init
      (engineBoom ⟨⟨[], [], 0⟩, [], 1⟩) Option.none ⟨"boom_tool", []⟩ "boom" [] 0
      Option.none).1 (by decide) (by decide) rfl,
   (C9_amended_failure_handling cfgBoom SysState.init
      (engineBoom ⟨⟨[], [], 0⟩, [], 1⟩) Option.none ⟨"boom_tool", []⟩ "boom" [] 0
      Option.none).2.2.1
    ((C9_amended_failure_handling cfgBoom SysState.init
        (engineBoom ⟨⟨[], [], 0⟩, [], 1⟩) Option.none ⟨"boom_tool", []⟩ "boom" [] 0
        Option.none).1 (by decide) (by decide) rfl) (by decide),
   (C9_amended_failure_handling cfgBoom SysState.init
      (engineBoom ⟨⟨[], [], 0⟩, [], 1⟩) Option.none ⟨"boom_tool", []⟩ "boom" [] 0
      Option.none).2.2.2.2.1,
   (C9_amended_failure_handling cfgBoom SysState.init
      (engineBoom ⟨⟨[], [], 0⟩, [], 1⟩) Option.none ⟨"boom_tool", []⟩ "boom" [] 0
      Option.none).2.2.2.2.2.2⟩

namespace PH

/-- Reference bounds widen. -/
theorem ValIn_mono {lo hi lo' hi' : Nat} {v : HVal} (h1 : lo' ≤ lo)
    (h2 : hi ≤ hi') (hv : ValIn lo hi v) : ValIn lo' hi' v := by
  cases v with
  | prim p => trivial
  | ref a =>
      obtain ⟨ha, hb⟩ := hv
      exact ⟨le_trans h1 ha, lt_of_lt_of_le hb h2⟩

/-- Object reference bounds widen. -/
theorem ObjIn_mono {lo hi lo' hi' : Nat} {o : HObj} (h1 : lo' ≤ lo)
    (h2 : hi ≤ hi') (ho : ObjIn lo hi o) : ObjIn lo' hi' o :=
  fun p hp => ValIn_mono h1 h2 (ho p hp)

/-- Field flattening only looks at the field values. -/
theorem flatFields_congr (f g : HVal → Option PTree) (o : HObj)
    (hfg : ∀ p ∈ o, f p.2 = g p.2) : flatFields f o = flatFields g o := by
  induction o with
  | nil => rfl
  | cons p rest ih =>
      obtain ⟨k, v⟩ := p
      unfold flatFields
      rw [hfg ⟨k, v⟩ (List.mem_cons_self _ _),
          ih (fun q hq => hfg q (List.mem_cons_of_mem _ hq))]

/-- Flattening a value whose references stay in a closed region depends
only on the region's objects. -/
theorem flatVal_frame : ∀ (n : Nat) (h h2 : Heap) (lo : Nat) (v : HVal),
    ValIn lo h.next v → Region h lo →
    (∀ a, lo ≤ a → a < h.next → h2.objs a = h.objs a) →
    flatVal n h2 v = flatVal n h v := by
  intro n
  induction n with
  | zero =>
      intro h h2 lo v hv hr hag
      cases v with
      | prim p => rfl
      | ref a => rfl
  | succ n ih =>
      intro h h2 lo v hv hr hag
      cases v with
      | prim p => rfl
      | ref a =>
          obtain ⟨ha, hb⟩ := hv
          obtain ⟨o, ho, hoin⟩ := hr a ha hb
          unfold flatVal
          rw [hag a ha hb, ho]
          exact flatFields_congr _ _ o
            (fun p hp => ih h h2 lo p.2 (hoin p hp) hr hag)

/-- The identity copy step. -/
theorem copySpec_refl (h : Heap) (hw : WF h) : CopySpec h h :=
  ⟨hw, le_refl _, fun _ _ => rfl, fun _ _ hr => hr⟩

/-- Copy steps compose. -/
theorem copySpec_trans {h h₁ h₂ : Heap} (a : CopySpec h h₁)
    (b : CopySpec h₁ h₂) : CopySpec h h₂ := by
  obtain ⟨w1, l1, p1, r1⟩ := a
  obtain ⟨w2, l2, p2, r2⟩ := b
  refine ⟨w2, le_trans l1 l2, ?_, ?_⟩
  · intro x hx
    rw [p2 x (lt_of_lt_of_le hx l1), p1 x hx]
  · intro lo hlo hr
    exact r2 lo (le_trans hlo l1) (r1 lo hlo hr)

/-- A field-wise copy satisfies the copy specification, and the copied
fields reference only the fresh region. -/
theorem dcFields_spec (dcv : Heap → HVal → Option (Heap × HVal))
    (hdcv : ∀ (h : Heap) (v : HVal) (h₁ : Heap) (v₁ : HVal), WF h →
      dcv h v = some (h₁, v₁) → CopySpec h h₁ ∧ ValIn h.next h₁.next v₁) :
    ∀ (o : HObj) (h h₁ : Heap) (o₁ : HObj), WF h →
      dcFields dcv h o = some (h₁, o₁) →
      CopySpec h h₁ ∧ ObjIn h.next h₁.next o₁ := by
  intro o
  induction o with
  | nil =>
      intro h h₁ o₁ hw heq
      unfold dcFields at heq
      injection heq with heq
      cases heq
      exact ⟨copySpec_refl h hw, fun p hp => absurd hp (List.not_mem_nil p)⟩
  | cons p rest ih =>
      intro h h₁ o₁ hw heq
      obtain ⟨k, v⟩ := p
      unfold dcFields at heq
      cases hv : dcv h v with
      | none => rw [hv] at heq; exact Option.noConfusion heq
      | some q =>
          obtain ⟨hA, v₁⟩ := q
          rw [hv] at heq
          dsimp only at heq
          cases hrest : dcFields dcv hA rest with
          | none => rw [hrest] at heq; exact Option.noConfusion heq
          | some r =>
              obtain ⟨h₂, r₁⟩ := r
              rw [hrest] at heq
              dsimp only at heq
              obtain ⟨hs, hv1⟩ := hdcv h v hA v₁ hw hv
              obtain ⟨hs2, ho1⟩ := ih hA h₂ r₁ hs.1 hrest
              injection heq with heq
              cases heq
              refine ⟨copySpec_trans hs hs2, ?_⟩
              intro q hq
              rcases List.mem_cons.mp hq with hcase | hcase
              · subst hcase
                exact ValIn_mono (le_refl _) hs2.2.1 hv1
              · exact ValIn_mono hs.2.1 (le_refl _) (ho1 q hcase)

/-- The deep copy satisfies the copy specification, and the copy
references only the fresh region. -/
theorem dcVal_spec : ∀ (n : Nat) (h : Heap) (v : HVal) (h₁ : Heap) (v₁ : HVal),
    WF h → dcVal n h v = some (h₁, v₁) →
    CopySpec h h₁ ∧ ValIn h.next h₁.next v₁ := by
  intro n
  induction n with
  | zero =>
      intro h v h₁ v₁ hw heq
      cases v with
      | prim p =>
          unfold dcVal at heq
          injection heq with heq
          cases heq
          exact ⟨copySpec_refl h hw, trivial⟩
      | ref a => exact Option.noConfusion heq
  | succ n ih =>
      intro h v h₁ v₁ hw heq
      cases v with
      | prim p =>
          unfold dcVal at heq
          injection heq with heq
          cases heq
          exact ⟨copySpec_refl h hw, trivial⟩
      | ref a =>
          unfold dcVal at heq
          cases ho : h.objs a with
          | none => rw [ho] at heq; exact Option.noConfusion heq
          | some o =>
              rw [ho] at heq
              dsimp only at heq
              cases hdf : dcFields (dcVal n) h o with
              | none => rw [hdf] at heq; exact Option.noConfusion heq
              | some q =>
                  obtain ⟨hA, o₁⟩ := q
                  rw [hdf] at heq
                  dsimp only at heq
                  injection heq with heq
                  cases heq
                  obtain ⟨hs, ho1⟩ := dcFields_spec (dcVal n)
                    (fun h v h₁ v₁ hw heq => ih h v h₁ v₁ hw heq) o h hA o₁ hw hdf
                  refine ⟨⟨?_, ?_, ?_, ?_⟩, ?_⟩
                  · intro b hb
                    show (if b = hA.next then some o₁ else hA.objs b) = Option.none
                    rw [if_neg (by simp only [allocH] at hb; omega)]
                    exact hs.1 b (by simp only [allocH] at hb; omega)
                  · show h.next ≤ hA.next + 1
                    have := hs.2.1
                    omega
                  · intro b hb
                    show (if b = hA.next then some o₁ else hA.objs b) = h.objs b
                    rw [if_neg (by have := hs.2.1; omega)]
                    exact hs.2.2.1 b hb
                  · intro lo hlo hr
                    intro b hblo hblt
                    show ∃ ob, (if b = hA.next then some o₁ else hA.objs b) = some ob
                      ∧ ObjIn lo (allocH hA o₁).next ob
                    by_cases hbe : b = hA.next
                    · subst hbe
                      rw [if_pos rfl]
                      exact ⟨o₁, rfl, ObjIn_mono hlo (Nat.le_succ _) ho1⟩
                    · rw [if_neg hbe]
                      have hblt2 : b < hA.next := by
                        simp only [allocH] at hblt
                        omega
                      obtain ⟨ob, hob, hobin⟩ := hs.2.2.2 lo hlo hr b hblo hblt2
                      exact ⟨ob, hob, ObjIn_mono (le_refl _) (Nat.le_succ _) hobin⟩
                  · exact ⟨hs.2.1, by show hA.next < hA.next + 1; omega⟩

/-- Flattening copied fields in any heap that preserves the copied
addresses equals flattening the original fields in the source heap. -/
theorem dcFields_flat (n : Nat)
    (IH : ∀ (h : Heap) (v : HVal) (h₁ : Heap) (v₁ : HVal) (lo : Nat),
      WF h → lo ≤ h.next → ValIn lo h.next v → Region h lo →
      dcVal n h v = some (h₁, v₁) →
      ∀ h₂ : Heap, (∀ a, a < h₁.next → h₂.objs a = h₁.objs a) →
        flatVal n h₂ v₁ = flatVal n h v) :
    ∀ (o : HObj) (h h₁ : Heap) (o₁ : HObj) (lo : Nat),
      WF h → lo ≤ h.next → ObjIn lo h.next o → Region h lo →
      dcFields (dcVal n) h o = some (h₁, o₁) →
      ∀ h₂ : Heap, (∀ a, a < h₁.next → h₂.objs a = h₁.objs a) →
        flatFields (flatVal n h₂) o₁ = flatFields (flatVal n h) o := by
  intro o
  induction o with
  | nil =>
      intro h h₁ o₁ lo hw hlo hoin hr heq h₂ hag
      unfold dcFields at heq
      injection heq with heq
      cases heq
      rfl
  | cons p rest ih =>
      intro h h₁ o₁ lo hw hlo hoin hr heq h₂ hag
      obtain ⟨k, v⟩ := p
      unfold dcFields at heq
      cases hv : dcVal n h v with
      | none => rw [hv] at heq; exact Option.noConfusion heq
      | some q =>
          obtain ⟨hA, v₁⟩ := q
          rw [hv] at heq
          dsimp only at heq
          cases hrest : dcFields (dcVal n) hA rest with
          | none => rw [hrest] at heq; exact Option.noConfusion heq
          | some r =>
              obtain ⟨hB, r₁⟩ := r
              rw [hrest] at heq
              dsimp only at heq
              injection heq with heq
              cases heq
              obtain ⟨hs, hv1⟩ := dcVal_spec n h v hA v₁ hw hv
              obtain ⟨hs2, ho1⟩ := dcFields_spec (dcVal n)
                (fun h v h₁ v₁ hw heq => dcVal_spec n h v h₁ v₁ hw heq)
                rest hA h₁ r₁ hs.1 hrest
              have htail : ObjIn lo h.next rest :=
                fun q hq => hoin q (List.mem_cons_of_mem _ hq)
              have hhead : flatVal n h₂ v₁ = flatVal n h v := by
                apply IH h v hA v₁ lo hw hlo
                  (hoin (k, v) (List.mem_cons_self _ _)) hr hv
                intro a ha
                rw [hag a (lt_of_lt_of_le ha hs2.2.1)]
                exact hs2.2.2.1 a ha
              have hrest2 : flatFields (flatVal n h₂) r₁
                  = flatFields (flatVal n hA) rest := by
                exact ih hA h₁ r₁ lo hs.1 (le_trans hlo hs.2.1)
                  (ObjIn_mono (le_refl _) hs.2.1 htail)
                  (hs.2.2.2 lo hlo hr) hrest h₂ hag
              have hrest3 : flatFields (flatVal n hA) rest
                  = flatFields (flatVal n h) rest := by
                apply flatFields_congr
                intro q hq
                exact flatVal_frame n h hA lo q.2 (htail q hq) hr
                  (fun a h1 h2 => hs.2.2.1 a h2)
              unfold flatFields
              rw [hhead, hrest2, hrest3]

/-- Flattening a deep copy in any heap that preserves the copied
addresses equals flattening the original value in the source heap. -/
theorem dcVal_flat : ∀ (n : Nat) (h : Heap) (v : HVal) (h₁ : Heap) (v₁ : HVal)
    (lo : Nat),
    WF h → lo ≤ h.next → ValIn lo h.next v → Region h lo →
    dcVal n h v = some (h₁, v₁) →
    ∀ h₂ : Heap, (∀ a, a < h₁.next → h₂.objs a = h₁.objs a) →
      flatVal n h₂ v₁ = flatVal n h v := by
  intro n
  induction n with
  | zero =>
      intro h v h₁ v₁ lo hw hlo hv hr heq h₂ hag
      cases v with
      | prim p =>
          unfold dcVal at heq
          injection heq with heq
          cases heq
          rfl
      | ref a => exact Option.noConfusion heq
  | succ n ih =>
      intro h v h₁ v₁ lo hw hlo hv hr heq h₂ hag
      cases v with
      | prim p =>
          unfold dcVal at heq
          injection heq with heq
          cases heq
          rfl
      | ref a =>
          obtain ⟨ha1, ha2⟩ := hv
          obtain ⟨o, ho, hoin⟩ := hr a ha1 ha2
          unfold dcVal at heq
          rw [ho] at heq
          dsimp only at heq
          cases hdf : dcFields (dcVal n) h o with
          | none => rw [hdf] at heq; exact Option.noConfusion heq
          | some q =>
              obtain ⟨hA, o₁⟩ := q
              rw [hdf] at heq
              dsimp only at heq
              injection heq with heq
              cases heq
              show flatVal (n + 1) h₂ (.ref hA.next) = flatVal (n + 1) h (.ref a)
              unfold flatVal
              rw [ho]
              have hobj : h₂.objs hA.next = some o₁ := by
                rw [hag hA.next (Nat.lt_succ_self _)]
                show (if hA.next = hA.next then some o₁ else hA.objs hA.next)
                  = some o₁
                rw [if_pos rfl]
              rw [hobj]
              apply dcFields_flat n ih o h hA o₁ lo hw hlo hoin hr hdf
              intro b hb
              rw [hag b (Nat.lt_succ_of_lt hb)]
              show (if b = hA.next then some o₁ else hA.objs b) = hA.objs b
              rw [if_neg (by omega)]

end PH

/-- C2 (amended): `freeze_state` deep-copies the cognition output, the
working store, the evidence cache, the context and the metaprompt
state, so those snapshot fields share no structure with live state:
after any subsequent mutation of the live heap (any heap agreeing with
the post-freeze heap on the freshly copied region), flattening each
copied field still yields exactly its freeze-time live value — thawing
reproduces the working-store and evidence-cache contents deep-equal to
freeze time.  The `pending_action` field, however, is the live
`proposed_action` value itself (aliased, not copied). -/
theorem C2_amended_freeze_state_isolation (fuel : Nat) (h : PH.Heap)
    (fid lc : Nat) (cog mem ev ctx mp pv : PH.HVal) (lvl : ILevel)
    (reason : String) (h5 : PH.Heap) (snap : PH.FrozenH)
    (hWF : PH.WF h) (hReg : PH.Region h 0)
    (hcv : PH.ValIn 0 h.next cog) (hmv : PH.ValIn 0 h.next mem)
    (hev : PH.ValIn 0 h.next ev) (hxv : PH.ValIn 0 h.next ctx)
    (hpm : PH.ValIn 0 h.next mp)
    (hkey : PH.getKey h cog "proposed_action" = some pv)
    (hfz : PH.freezeH fuel h fid lc cog mem ev ctx mp lvl reason
      = some (h5, snap)) :
    snap.pending_action = pv ∧
    ∀ h2 : PH.Heap,
      (∀ a, h.next ≤ a → a < h5.next → h2.objs a = h5.objs a) →
      PH.flatVal fuel h2 snap.cognition_output = PH.flatVal fuel h cog ∧
      PH.flatVal fuel h2 snap.memory_snapshot = PH.flatVal fuel h mem ∧
      PH.flatVal fuel h2 snap.evidence_cache = PH.flatVal fuel h ev ∧
      PH.flatVal fuel h2 snap.context = PH.flatVal fuel h ctx ∧
      PH.flatVal fuel h2 snap.metaprompt_state = PH.flatVal fuel h mp := by
  unfold PH.freezeH at hfz
  rw [hkey] at hfz
  dsimp only at hfz
  cases hd1 : PH.dcVal fuel h cog with
  | none => rw [hd1] at hfz; exact Option.noConfusion hfz
  | some p1 =>
    obtain ⟨hA, cog1⟩ := p1
    rw [hd1] at hfz
    dsimp only at hfz
    cases hd2 : PH.dcVal fuel hA mem with
    | none => rw [hd2] at hfz; exact Option.noConfusion hfz
    | some p2 =>
      obtain ⟨hB, mem1⟩ := p2
      rw [hd2] at hfz
      dsimp only at hfz
      cases hd3 : PH.dcVal fuel hB ev with
      | none => rw [hd3] at hfz; exact Option.noConfusion hfz
      | some p3 =>
        obtain ⟨hC, ev1⟩ := p3
        rw [hd3] at hfz
        dsimp only at hfz
        cases hd4 : PH.dcVal fuel hC ctx with
        | none => rw [hd4] at hfz; exact Option.noConfusion hfz
        | some p4 =>
          obtain ⟨hD, ctx1⟩ := p4
          rw [hd4] at hfz
          dsimp only at hfz
          cases hd5 : PH.dcVal fuel hD mp with
          | none => rw [hd5] at hfz; exact Option.noConfusion hfz
          | some p5 =>
            obtain ⟨hE, mp1⟩ := p5
            rw [hd5] at hfz
            dsimp only at hfz
            injection hfz with hfz
            cases hfz
            obtain ⟨cs1, vi1⟩ := PH.dcVal_spec fuel h cog hA cog1 hWF hd1
            obtain ⟨cs2, vi2⟩ := PH.dcVal_spec fuel hA mem hB mem1 cs1.1 hd2
            obtain ⟨cs3, vi3⟩ := PH.dcVal_spec fuel hB ev hC ev1 cs2.1 hd3
            obtain ⟨cs4, vi4⟩ := PH.dcVal_spec fuel hC ctx hD ctx1 cs3.1 hd4
            obtain ⟨cs5, vi5⟩ := PH.dcVal_spec fuel hD mp h5 mp1 cs4.1 hd5
            have le1 : h.next ≤ hA.next := cs1.2.1
            have le2 : hA.next ≤ hB.next := cs2.2.1
            have le3 : hB.next ≤ hC.next := cs3.2.1
            have le4 : hC.next ≤ hD.next := cs4.2.1
            have le5 : hD.next ≤ h5.next := cs5.2.1
            have agD : ∀ a, a < hD.next → h5.objs a = hD.objs a := cs5.2.2.1
            have agC : ∀ a, a < hC.next → h5.objs a = hC.objs a := fun a ha =>
              (agD a (lt_of_lt_of_le ha le4)).trans (cs4.2.2.1 a ha)
            have agB : ∀ a, a < hB.next → h5.objs a = hB.objs a := fun a ha =>
              (agC a (lt_of_lt_of_le ha le3)).trans (cs3.2.2.1 a ha)
            have agA : ∀ a, a < hA.next → h5.objs a = hA.objs a := fun a ha =>
              (agB a (lt_of_lt_of_le ha le2)).trans (cs2.2.2.1 a ha)
            have agHB : ∀ a, a < h.next → hB.objs a = h.objs a := fun a ha =>
              (cs2.2.2.1 a (lt_of_lt_of_le ha le1)).trans (cs1.2.2.1 a ha)
            have agHC : ∀ a, a < h.next → hC.objs a = h.objs a := fun a ha =>
              (cs3.2.2.1 a (lt_of_lt_of_le ha (le_trans le1 le2))).trans (agHB a ha)
            have agHD : ∀ a, a < h.next → hD.objs a = h.objs a := fun a ha =>
              (cs4.2.2.1 a
                (lt_of_lt_of_le ha (le_trans (le_trans le1 le2) le3))).trans
                (agHC a ha)
            have regH : PH.Region h h.next := fun a h1 h2 => absurd h2 (by omega)
            have regA : PH.Region hA h.next := cs1.2.2.2 h.next (le_refl _) regH
            have regB : PH.Region hB h.next := cs2.2.2.2 h.next le1 regA
            have regC : PH.Region hC h.next :=
              cs3.2.2.2 h.next (le_trans le1 le2) regB
            have regD : PH.Region hD h.next :=
              cs4.2.2.2 h.next (le_trans (le_trans le1 le2) le3) regC
            have regE : PH.Region h5 h.next :=
              cs5.2.2.2 h.next (le_trans (le_trans (le_trans le1 le2) le3) le4)
                regD
            have reg0A : PH.Region hA 0 := cs1.2.2.2 0 (Nat.zero_le _) hReg
            have reg0B : PH.Region hB 0 := cs2.2.2.2 0 (Nat.zero_le _) reg0A
            have reg0C : PH.Region hC 0 := cs3.2.2.2 0 (Nat.zero_le _) reg0B
            have reg0D : PH.Region hD 0 := cs4.2.2.2 0 (Nat.zero_le _) reg0C
            refine ⟨rfl, ?_⟩
            intro h2 hag
            have frame5 : ∀ w : PH.HVal, PH.ValIn h.next h5.next w →
                PH.flatVal fuel h2 w = PH.flatVal fuel h5 w := fun w hw =>
              PH.flatVal_frame fuel h5 h2 h.next w hw regE hag
            have hc5 : PH.flatVal fuel h5 cog1 = PH.flatVal fuel h cog :=
              PH.dcVal_flat fuel h cog hA cog1 0 hWF (Nat.zero_le _) hcv hReg
                hd1 h5 agA
            have hcm : PH.flatVal fuel h2 cog1 = PH.flatVal fuel h5 cog1 :=
              frame5 cog1 (PH.ValIn_mono (le_refl _)
                (le_trans (le_trans (le_trans le2 le3) le4) le5) vi1)
            have hm5 : PH.flatVal fuel h5 mem1 = PH.flatVal fuel hA mem :=
              PH.dcVal_flat fuel hA mem hB mem1 0 cs1.1 (Nat.zero_le _)
                (PH.ValIn_mono (le_refl _) le1 hmv) reg0A hd2 h5 agB
            have hmA : PH.flatVal fuel hA mem = PH.flatVal fuel h mem :=
              PH.flatVal_frame fuel h hA 0 mem hmv hReg
                (fun a _ ha2 => cs1.2.2.1 a ha2)
            have hmm : PH.flatVal fuel h2 mem1 = PH.flatVal fuel h5 mem1 :=
              frame5 mem1 (PH.ValIn_mono le1
                (le_trans (le_trans le3 le4) le5) vi2)
            have he5 : PH.flatVal fuel h5 ev1 = PH.flatVal fuel hB ev :=
              PH.dcVal_flat fuel hB ev hC ev1 0 cs2.1 (Nat.zero_le _)
                (PH.ValIn_mono (le_refl _) (le_trans le1 le2) hev) reg0B hd3 h5
                agC
            have heB : PH.flatVal fuel hB ev = PH.flatVal fuel h ev :=
              PH.flatVal_frame fuel h hB 0 ev hev hReg (fun a _ ha2 => agHB a ha2)
            have hem : PH.flatVal fuel h2 ev1 = PH.flatVal fuel h5 ev1 :=
              frame5 ev1 (PH.ValIn_mono (le_trans le1 le2)
                (le_trans le4 le5) vi3)
            have hx5 : PH.flatVal fuel h5 ctx1 = PH.flatVal fuel hC ctx :=
              PH.dcVal_flat fuel hC ctx hD ctx1 0 cs3.1 (Nat.zero_le _)
                (PH.ValIn_mono (le_refl _) (le_trans (le_trans le1 le2) le3) hxv)
                reg0C hd4 h5 agD
            have hxC : PH.flatVal fuel hC ctx = PH.flatVal fuel h ctx :=
              PH.flatVal_frame fuel h hC 0 ctx hxv hReg (fun a _ ha2 => agHC a ha2)
            have hxm : PH.flatVal fuel h2 ctx1 = PH.flatVal fuel h5 ctx1 :=
              frame5 ctx1 (PH.ValIn_mono (le_trans (le_trans le1 le2) le3) le5 vi4)
            have hp5 : PH.flatVal fuel h5 mp1 = PH.flatVal fuel hD mp :=
              PH.dcVal_flat fuel hD mp h5 mp1 0 cs4.1 (Nat.zero_le _)
                (PH.ValIn_mono (le_refl _)
                  (le_trans (le_trans (le_trans le1 le2) le3) le4) hpm)
                reg0D hd5 h5 (fun a _ => rfl)
            have hpD : PH.flatVal fuel hD mp = PH.flatVal fuel h mp :=
              PH.flatVal_frame fuel h hD 0 mp hpm hReg (fun a _ ha2 => agHD a ha2)
            have hpm2 : PH.flatVal fuel h2 mp1 = PH.flatVal fuel h5 mp1 :=
              frame5 mp1 (PH.ValIn_mono
                (le_trans (le_trans (le_trans le1 le2) le3) le4) (le_refl _) vi5)
            exact ⟨hcm.trans hc5, (hmm.trans hm5).trans hmA,
              (hem.trans he5).trans heB, (hxm.trans hx5).trans hxC,
              (hpm2.trans hp5).trans hpD⟩

/-- C2: refuted as stated — `freeze_state` does not deep-copy every
mutable input: `pending_action` is stored as the live `proposed_action`
dict itself (`cognition_output.get("proposed_action", \x7b\x7d)`, no
`copy.deepcopy`), so an in-place mutation of the live proposed-action
dict after the freeze changes the stored snapshot's `pending_action`
(here from `send_email` to `rm_all`), even though the deep-copied
`cognition_output` field still records the freeze-time value. -/
theorem C2_pending_action_aliased :
    PH.flatVal 10 PH.demoHeap5 PH.demoSnap.pending_action
      = some (.ocons "tool_name" (.prim (.s "send_email")) .onil) ∧
    PH.flatVal 10 PH.demoMutated PH.demoSnap.pending_action
      = some (.ocons "tool_name" (.prim (.s "rm_all")) .onil) ∧
    PH.flatVal 10 PH.demoMutated PH.demoSnap.cognition_output
      = PH.flatVal 10 PH.demoHeap (.ref 1) := by
  refine ⟨?_, ?_, ?_⟩ <;> rfl

/-- Concrete instantiation of the amended C2 theorem: on the demo heap
the freeze stores the aliased live proposed-action dict (address 0) as
`pending_action`, and after the in-place mutation of that dict every
deep-copied snapshot field still flattens to its freeze-time live
value. -/
theorem C2_amended_freeze_state_isolation_witness :
    PH.demoSnap.pending_action = PH.HVal.ref 0 ∧
    PH.flatVal 10 PH.demoMutated PH.demoSnap.cognition_output
      = PH.flatVal 10 PH.demoHeap (.ref 1) ∧
    PH.flatVal 10 PH.demoMutated PH.demoSnap.memory_snapshot
      = PH.flatVal 10 PH.demoHeap (.ref 2) ∧
    PH.flatVal 10 PH.demoMutated PH.demoSnap.evidence_cache
      = PH.flatVal 10 PH.demoHeap (.ref 3) ∧
    PH.flatVal 10 PH.demoMutated PH.demoSnap.context
      = PH.flatVal 10 PH.demoHeap (.ref 4) ∧
    PH.flatVal 10 PH.demoMutated PH.demoSnap.metaprompt_state
      = PH.flatVal 10 PH.demoHeap (.ref 5) := by
  have hWF : PH.WF PH.demoHeap := by
    intro a ha
    have h6 : (6 : Nat) ≤ a := ha
    show (if a = 0 then some [("tool_name", PH.HVal.prim (.s "send_email"))]
      else if a = 1 then
        some [("proposed_action", PH.HVal.ref 0),
              ("reasoning", PH.HVal.prim (.s "r"))]
      else if a = 2 then some [("weather_collected", PH.HVal.prim (.b true))]
      else if a = 3 then some []
      else if a = 4 then some [("status", PH.HVal.prim (.s "pending_email"))]
      else if a = 5 then some []
      else Option.none) = Option.none
    rw [if_neg (by omega), if_neg (by omega), if_neg (by omega),
        if_neg (by omega), if_neg (by omega), if_neg (by omega)]
  have hReg : PH.Region PH.demoHeap 0 := by
    intro a _ ha
    have h6 : a < 6 := ha
    interval_cases a
    · exact ⟨_, rfl, by decide⟩
    · exact ⟨_, rfl, by decide⟩
    · exact ⟨_, rfl, by decide⟩
    · exact ⟨_, rfl, by decide⟩
    · exact ⟨_, rfl, by decide⟩
    · exact ⟨_, rfl, by decide⟩
  have hfz : PH.freezeH 10 PH.demoHeap 1 3 (.ref 1) (.ref 2) (.ref 3) (.ref 4)
      (.ref 5) .approve "High-risk tool: send_email"
      = some (PH.demoHeap5, PH.demoSnap) := rfl
  have h := C2_amended_freeze_state_isolation 10 PH.demoHeap 1 3 (.ref 1)
    (.ref 2) (.ref 3) (.ref 4) (.ref 5) (.ref 0) .approve
    "High-risk tool: send_email" PH.demoHeap5 PH.demoSnap hWF hReg
    (by decide) (by decide) (by decide) (by decide) (by decide) rfl hfz
  have hag : ∀ a, PH.demoHeap.next ≤ a → a < PH.demoHeap5.next →
      PH.demoMutated.objs a = PH.demoHeap5.objs a := by
    intro a ha _
    have h6 : (6 : Nat) ≤ a := ha
    show (if a = 0 then some [("tool_name", PH.HVal.prim (.s "rm_all"))]
      else PH.demoHeap5.objs a) = PH.demoHeap5.objs a
    rw [if_neg (by omega)]
  exact ⟨h.1, (h.2 PH.demoMutated hag).1, (h.2 PH.demoMutated hag).2.1,
    (h.2 PH.demoMutated hag).2.2.1, (h.2 PH.demoMutated hag).2.2.2.1,
    (h.2 PH.demoMutated hag).2.2.2.2⟩

end SCL
